import Mathlib

/-!
Verification of the core of a Rust ray tracer (vectors, matrices, affine
transforms, intersections, shading pipeline, parallel camera render).

Modelling conventions:
* `f64` arithmetic is modelled as exact real arithmetic (`ℝ`).
* Rust `panic!` / `Option::unwrap` failures are modelled with
  `Except String` results ("fail fast" = `Except.error`).
* Random `u32` identity handles are modelled as `ℕ`.
* Definitions mirror the Rust source structure-for-structure; loops become
  recursive helper functions or folds.
-/

open scoped Classical

noncomputable section

namespace RayTracer

/-- Rust `f64::round`: nearest integer, ties away from zero (result is an
integral `f64`, modelled as a real number). -/
def rustRound (x : ℝ) : ℝ :=
  if 0 ≤ x then ((⌊x + 1/2⌋ : ℤ) : ℝ) else ((⌈x - 1/2⌉ : ℤ) : ℝ)

/-- Rust `f64::floor` (result is an integral `f64`). -/
def rustFloor (x : ℝ) : ℝ := ((⌊x⌋ : ℤ) : ℝ)

/-- Rust `f64::trunc`: round toward zero. -/
def rustTrunc (x : ℝ) : ℝ :=
  if 0 ≤ x then ((⌊x⌋ : ℤ) : ℝ) else ((⌈x⌉ : ℤ) : ℝ)

/-- Rust `%` on `f64`: remainder with the sign of the dividend,
`a - b * trunc(a / b)`. -/
def rustRem (a b : ℝ) : ℝ := a - b * rustTrunc (a / b)

/-- `src/vectors/mod.rs`: 4-component homogeneous tuple. -/
structure Tuple where
  x : ℝ
  y : ℝ
  z : ℝ
  w : ℝ

namespace Tuple

/-- `Tuple::add`. -/
def add (a p : Tuple) : Tuple := ⟨a.x + p.x, a.y + p.y, a.z + p.z, a.w + p.w⟩

/-- `Tuple::sub`. -/
def sub (a p : Tuple) : Tuple := ⟨a.x - p.x, a.y - p.y, a.z - p.z, a.w - p.w⟩

/-- `Tuple::negate`. -/
def negate (a : Tuple) : Tuple := ⟨-a.x, -a.y, -a.z, -a.w⟩

/-- `Tuple::mult` (scalar multiply). -/
def mult (p : Tuple) (a : ℝ) : Tuple := ⟨p.x * a, p.y * a, p.z * a, p.w * a⟩

/-- `Tuple::div` (scalar divide). -/
def div (p : Tuple) (a : ℝ) : Tuple := ⟨p.x / a, p.y / a, p.z / a, p.w / a⟩

/-- `Tuple::mag`. -/
def mag (p : Tuple) : ℝ := Real.sqrt (p.x * p.x + p.y * p.y + p.z * p.z + p.w * p.w)

/-- `Tuple::norm`. -/
def norm (p : Tuple) : Tuple := p.div p.mag

end Tuple

/-- `vectors::point`. -/
def point (x y z : ℝ) : Tuple := ⟨x, y, z, 1⟩

/-- `vectors::vector`. -/
def vector (x y z : ℝ) : Tuple := ⟨x, y, z, 0⟩

/-- `vectors::dot`. -/
def dot (a b : Tuple) : ℝ := a.x * b.x + a.y * b.y + a.z * b.z + a.w * b.w

/-- `vectors::cross`. -/
def cross (a b : Tuple) : Tuple :=
  vector (a.y * b.z - a.z * b.y) (a.z * b.x - a.x * b.z) (a.x * b.y - a.y * b.x)

/-- `vectors::reflect`. -/
def reflect (incidence nrm : Tuple) : Tuple :=
  incidence.sub (nrm.mult (2 * dot incidence nrm))

/-- `src/colors/mod.rs`: RGB color. -/
structure Color where
  r : ℝ
  g : ℝ
  b : ℝ

namespace Color

/-- `Color::add`. -/
def add (a b : Color) : Color := ⟨a.r + b.r, a.g + b.g, a.b + b.b⟩

/-- `Color::sub`. -/
def sub (a b : Color) : Color := ⟨a.r - b.r, a.g - b.g, a.b - b.b⟩

/-- `Color::mult` (scalar multiply). -/
def mult (c : Color) (a : ℝ) : Color := ⟨c.r * a, c.g * a, c.b * a⟩

/-- `Color::dot` (component-wise product). -/
def cdot (a b : Color) : Color := ⟨a.r * b.r, a.g * b.g, a.b * b.b⟩

end Color

/-- `src/matrix/mod.rs`: dense row-major matrix with explicit size fields.
The backing `Vec<f64>` is a `List ℝ`; out-of-range `Vec` indexing (a Rust
panic, never reached by in-contract callers) is modelled by `getD _ 0`. -/
structure Matrix where
  rows : ℕ
  cols : ℕ
  data : List ℝ

namespace Matrix

/-- `Matrix::get`: `data[r * cols + c]`. -/
def get (a : Matrix) (r c : ℕ) : ℝ := a.data.getD (r * a.cols + c) 0

/-- `Matrix::mult`: note the source always stamps the result as 4×4. -/
def mult (a b : Matrix) : Matrix :=
  ⟨4, 4,
    ((List.range a.rows).map (fun row =>
      (List.range a.cols).map (fun col =>
        (((List.range a.rows).map (fun k => a.get row k * b.get k col)).sum)))).flatten⟩

/-- `Matrix::transpose`: note the source always stamps the result as 4×4. -/
def transpose (a : Matrix) : Matrix :=
  ⟨4, 4,
    ((List.range a.cols).map (fun col =>
      (List.range a.rows).map (fun row => a.get row col))).flatten⟩

/-- `Matrix::mult_4x4_by_1d`. -/
def mult_4x4_by_1d (a : Matrix) (b : Tuple) : Tuple :=
  ⟨a.get 0 0 * b.x + a.get 0 1 * b.y + a.get 0 2 * b.z + a.get 0 3 * b.w,
   a.get 1 0 * b.x + a.get 1 1 * b.y + a.get 1 2 * b.z + a.get 1 3 * b.w,
   a.get 2 0 * b.x + a.get 2 1 * b.y + a.get 2 2 * b.z + a.get 2 3 * b.w,
   a.get 3 0 * b.x + a.get 3 1 * b.y + a.get 3 2 * b.z + a.get 3 3 * b.w⟩

/-- `Matrix::identity` (sizes 2, 3, 4; other sizes panic in the source and are
never requested by it). -/
def identity (size : ℕ) : Matrix :=
  if size = 2 then ⟨2, 2, [1, 0, 0, 1]⟩
  else if size = 3 then ⟨3, 3, [1, 0, 0, 0, 1, 0, 0, 0, 1]⟩
  else ⟨4, 4, [1, 0, 0, 0, 0, 1, 0, 0, 0, 0, 1, 0, 0, 0, 0, 1]⟩

/-- `Matrix::submatrix` (the `row >= rows || col >= cols` panic guard is never
reached from `determinant`/`cofactor` on the sizes the program uses; the
guard branch returns a junk matrix here). -/
def submatrix (a : Matrix) (row col : ℕ) : Matrix :=
  ⟨a.rows - 1, a.cols - 1,
    (((List.range a.rows).filter (fun i => i ≠ row)).map (fun i =>
      ((List.range a.cols).filter (fun j => j ≠ col)).map (fun j => a.get i j))).flatten⟩

mutual

/-- `Matrix::determinant`: 2×2 base case, otherwise cofactor expansion along
row 0. -/
def determinant (a : Matrix) : ℝ :=
  if a.rows = 2 then a.get 0 0 * a.get 1 1 - a.get 0 1 * a.get 1 0
  else ((List.range a.cols).map (fun i => cofactor a 0 i * a.get 0 i)).sum
termination_by (a.rows, 1)

/-- `Matrix::cofactor`: signed determinant of the submatrix. The source
panics on an out-of-range row/col; that guard branch (unreachable from
in-range callers) returns 0 here. -/
def cofactor (a : Matrix) (row col : ℕ) : ℝ :=
  if _h : row ≥ a.rows ∨ col ≥ a.cols then 0
  else
    let minor := determinant (submatrix a row col)
    if (row + col) % 2 = 1 then -minor else minor
termination_by (a.rows, 0)
decreasing_by
  simp only [submatrix]
  exact Prod.Lex.left _ _ (by omega)

end

/-- `Matrix::minor`: determinant of the submatrix (junk 0 on the source's
out-of-range panic guard). -/
def minor (a : Matrix) (row col : ℕ) : ℝ :=
  if row ≥ a.rows ∨ col ≥ a.cols then 0
  else determinant (submatrix a row col)

/-- `Matrix::invertible`: determinant nonzero. -/
def invertible (a : Matrix) : Prop := determinant a ≠ 0

/-- `Matrix::inverse`: panics (`Except.error`) on a singular matrix,
otherwise the transpose of the row-major cofactor/determinant data. -/
def inverse (a : Matrix) : Except String Matrix :=
  if ¬ invertible a then .error "cannot invert matrix"
  else
    let d := determinant a
    .ok (transpose ⟨a.rows, a.cols,
      ((List.range a.rows).map (fun i =>
        (List.range a.cols).map (fun j => cofactor a i j / d))).flatten⟩)

end Matrix

/-- `src/transform/mod.rs`: fluent affine-transform builder wrapping a
matrix. -/
structure Transform where
  transform : Matrix

/-- The raw translation matrix built inside `Transform::translate`. -/
def translationMatrix (x y z : ℝ) : Matrix :=
  ⟨4, 4, [1, 0, 0, x, 0, 1, 0, y, 0, 0, 1, z, 0, 0, 0, 1]⟩

/-- The raw scaling matrix built inside `Transform::scale`. -/
def scalingMatrix (x y z : ℝ) : Matrix :=
  ⟨4, 4, [x, 0, 0, 0, 0, y, 0, 0, 0, 0, z, 0, 0, 0, 0, 1]⟩

/-- The raw x-rotation matrix built inside `Transform::rotate_x`. -/
def rotationXMatrix (rot : ℝ) : Matrix :=
  ⟨4, 4, [1, 0, 0, 0,
          0, Real.cos rot, -Real.sin rot, 0,
          0, Real.sin rot, Real.cos rot, 0,
          0, 0, 0, 1]⟩

/-- The raw y-rotation matrix built inside `Transform::rotate_y`. -/
def rotationYMatrix (rot : ℝ) : Matrix :=
  ⟨4, 4, [Real.cos rot, 0, Real.sin rot, 0,
          0, 1, 0, 0,
          -Real.sin rot, 0, Real.cos rot, 0,
          0, 0, 0, 1]⟩

/-- The raw z-rotation matrix built inside `Transform::rotate_z`. -/
def rotationZMatrix (rot : ℝ) : Matrix :=
  ⟨4, 4, [Real.cos rot, -Real.sin rot, 0, 0,
          Real.sin rot, Real.cos rot, 0, 0,
          0, 0, 1, 0,
          0, 0, 0, 1]⟩

/-- The raw shearing matrix built inside `Transform::shear`. -/
def shearingMatrix (xy xz yx yz zx zy : ℝ) : Matrix :=
  ⟨4, 4, [1, xy, xz, 0, yx, 1, yz, 0, zx, zy, 1, 0, 0, 0, 0, 1]⟩

namespace Transform

/-- `Transform::new`: the 4×4 identity. -/
def new : Transform := ⟨Matrix.identity 4⟩

/-- `Transform::translate`: right-multiplies the accumulated matrix. -/
def translate (t : Transform) (x y z : ℝ) : Transform :=
  ⟨Matrix.mult t.transform (translationMatrix x y z)⟩

/-- `Transform::scale`: right-multiplies the accumulated matrix. -/
def scale (t : Transform) (x y z : ℝ) : Transform :=
  ⟨Matrix.mult t.transform (scalingMatrix x y z)⟩

/-- `Transform::rotate_x`: right-multiplies the accumulated matrix. -/
def rotate_x (t : Transform) (rot : ℝ) : Transform :=
  ⟨Matrix.mult t.transform (rotationXMatrix rot)⟩

/-- `Transform::rotate_y`: right-multiplies the accumulated matrix. -/
def rotate_y (t : Transform) (rot : ℝ) : Transform :=
  ⟨Matrix.mult t.transform (rotationYMatrix rot)⟩

/-- `Transform::rotate_z`: right-multiplies the accumulated matrix. -/
def rotate_z (t : Transform) (rot : ℝ) : Transform :=
  ⟨Matrix.mult t.transform (rotationZMatrix rot)⟩

/-- `Transform::shear`: right-multiplies the accumulated matrix. -/
def shear (t : Transform) (xy xz yx yz zx zy : ℝ) : Transform :=
  ⟨Matrix.mult t.transform (shearingMatrix xy xz yx yz zx zy)⟩

end Transform

/-- One call in a chain of `Transform` builder invocations. -/
inductive TransformCall where
  | translate (x y z : ℝ)
  | scale (x y z : ℝ)
  | rotate_x (rot : ℝ)
  | rotate_y (rot : ℝ)
  | rotate_z (rot : ℝ)
  | shear (xy xz yx yz zx zy : ℝ)

/-- Apply one builder call to an accumulated `Transform`. -/
def applyCall (t : Transform) : TransformCall → Transform
  | .translate x y z => t.translate x y z
  | .scale x y z => t.scale x y z
  | .rotate_x rot => t.rotate_x rot
  | .rotate_y rot => t.rotate_y rot
  | .rotate_z rot => t.rotate_z rot
  | .shear xy xz yx yz zx zy => t.shear xy xz yx yz zx zy

/-- A whole chain `t.f1(...).f2(...)...` of builder calls, first call first. -/
def applyChain (t : Transform) (calls : List TransformCall) : Transform :=
  calls.foldl applyCall t

/-- The raw 4×4 matrix of a single builder call. -/
def callMatrix : TransformCall → Matrix
  | .translate x y z => translationMatrix x y z
  | .scale x y z => scalingMatrix x y z
  | .rotate_x rot => rotationXMatrix rot
  | .rotate_y rot => rotationYMatrix rot
  | .rotate_z rot => rotationZMatrix rot
  | .shear xy xz yx yz zx zy => shearingMatrix xy xz yx yz zx zy

/-- `src/pattern/mod.rs`: the pattern kind tag. -/
inductive PatternType where
  | checker
  | gradient
  | ring
  | stripe
  | test

/-- `src/pattern/mod.rs`: a procedural pattern. -/
structure Pattern where
  pattern_type : PatternType
  a : Color
  b : Color
  transform : Matrix

namespace Pattern

/-- `Pattern::new`. -/
def new (pattern_type : PatternType) (color1 color2 : Color) : Pattern :=
  ⟨pattern_type, color1, color2, Matrix.identity 4⟩

end Pattern

/-- `src/pattern/checker.rs` `Checker::pattern_at`: color `a` when the sum of
the *rounded-then-floored* coordinates has float-remainder (mod 2) of
absolute value below 1e-9, otherwise color `b`. -/
def Checker.pattern_at (pattern : Pattern) (p : Tuple) : Color :=
  if |rustRem (rustFloor (rustRound p.x) + rustFloor (rustRound p.y) +
      rustFloor (rustRound p.z)) 2| < 1e-9
  then pattern.a else pattern.b

/-- `src/pattern/gradient.rs` `Gradient::pattern_at`. -/
def Gradient.pattern_at (pattern : Pattern) (p : Tuple) : Color :=
  let distance := Color.sub pattern.b pattern.a
  let fraction := p.x - rustFloor p.x
  Color.add pattern.a (Color.mult distance fraction)

/-- `src/pattern/stripe.rs` `Stripe::pattern_at`. -/
def Stripe.pattern_at (pattern : Pattern) (p : Tuple) : Color :=
  if 0 ≤ p.x then
    (if 1 ≤ rustRem p.x 2 then pattern.b else pattern.a)
  else
    (if 1 < rustRem |p.x| 2 then pattern.a else pattern.b)

/-- `src/pattern/ring.rs` `Ring::pattern_at`. -/
def Ring.pattern_at (pattern : Pattern) (p : Tuple) : Color :=
  if rustRem (rustFloor (Real.sqrt (p.x * p.x + p.z * p.z))) 2 = 0
  then pattern.a else pattern.b

/-- `Pattern::pattern_at`: dispatch on the pattern kind (the `Test` kind
returns the point's coordinates as a color). -/
def Pattern.pattern_at (pattern : Pattern) (p : Tuple) : Color :=
  match pattern.pattern_type with
  | .checker => Checker.pattern_at pattern p
  | .gradient => Gradient.pattern_at pattern p
  | .stripe => Stripe.pattern_at pattern p
  | .ring => Ring.pattern_at pattern p
  | .test => ⟨p.x, p.y, p.z⟩

/-- `src/material/mod.rs`: surface material. -/
structure Material where
  color : Color
  ambient : ℝ
  diffuse : ℝ
  specular : ℝ
  shininess : ℝ
  reflectiveness : ℝ
  transparency : ℝ
  refractive_index : ℝ
  pattern : Option Pattern

namespace Material

/-- `Material::new`. -/
def new : Material :=
  ⟨⟨1, 1, 1⟩, 0.1, 0.9, 0.9, 200, 0, 0, 1, none⟩

end Material

/-- `src/shape/mod.rs`: the shape kind tag. -/
inductive ShapeType where
  | sphere
  | plane
  | test

/-- `src/shape/mod.rs`: a polymorphic shape; `handle` is the random `u32`
identity token (modelled as `ℕ`). -/
structure Shape where
  shape_type : ShapeType
  origin : Tuple
  handle : ℕ
  transform : Matrix
  material : Material

namespace Shape

/-- `Shape::new` (the random handle becomes an explicit argument here). -/
def new (shape_type : ShapeType) (handle : ℕ) : Shape :=
  ⟨shape_type, point 0 0 0, handle, Matrix.identity 4, Material.new⟩

/-- `Shape::glass_sphere` (random handle as explicit argument). -/
def glass_sphere (handle : ℕ) : Shape :=
  let sphere := Shape.new .sphere handle
  { sphere with material := { sphere.material with transparency := 1, refractive_index := 1.5 } }

end Shape

/-- `src/ray/mod.rs`: a ray. -/
structure Ray where
  origin : Tuple
  direction : Tuple

namespace Ray

/-- `Ray::position`. -/
def position (r : Ray) (time : ℝ) : Tuple := r.origin.add (r.direction.mult time)

/-- `Ray::transform`. -/
def transform (r : Ray) (m : Matrix) : Ray :=
  ⟨Matrix.mult_4x4_by_1d m r.origin, Matrix.mult_4x4_by_1d m r.direction⟩

end Ray

/-- `src/intersections/mod.rs`: one intersection record. -/
structure Intersection where
  t : ℝ
  object : Shape

/-- `src/intersections/mod.rs`: an ordered sequence of intersections. -/
structure Intersections where
  intersections : List Intersection

/-- `src/shape/sphere.rs` `Sphere::intersects`: the ray–unit-sphere
quadratic. -/
def Sphere.intersects (object : Shape) (ray : Ray) : Intersections :=
  let sphere_to_ray := ray.origin.sub (point 0 0 0)
  let a := dot ray.direction ray.direction
  let b := 2 * dot ray.direction sphere_to_ray
  let c := dot sphere_to_ray sphere_to_ray - 1
  let discriminant := b * b - 4 * a * c
  if discriminant < 0 then ⟨[]⟩
  else
    let dsqrt := Real.sqrt discriminant
    let t1 := (-b - dsqrt) / 2 / a
    let t2 := (-b + dsqrt) / 2 / a
    if t2 < t1 then ⟨[⟨t2, object⟩, ⟨t1, object⟩]⟩
    else ⟨[⟨t1, object⟩, ⟨t2, object⟩]⟩

/-- `src/shape/plane.rs` `Plane::intersects`: the y = 0 plane. -/
def Plane.intersects (object : Shape) (ray : Ray) : Intersections :=
  if |ray.direction.y| < 1e-10 then ⟨[]⟩
  else ⟨[⟨-ray.origin.y / ray.direction.y, object⟩]⟩

namespace Shape

/-- `Shape::intersects`: invert the shape transform (panic on a singular
matrix), move the ray to object space, dispatch on the shape kind. -/
def intersects (s : Shape) (ray : Ray) : Except String Intersections := do
  let i ← Matrix.inverse s.transform
  let local_ray := ray.transform i
  match s.shape_type with
  | .sphere => pure (Sphere.intersects s local_ray)
  | .plane => pure (Plane.intersects s local_ray)
  | .test => pure ⟨[]⟩

/-- `src/shape/sphere.rs` `Sphere::normal_at` (object space). -/
def sphereNormalAt (object_point : Tuple) : Tuple :=
  (object_point.sub (point 0 0 0)).norm

/-- `Shape::normal_at`: object-space normal mapped back through the
transposed inverse transform, `w` forced to 0, re-normalized. -/
def normal_at (s : Shape) (p : Tuple) : Except String Tuple := do
  let inverse_transform ← Matrix.inverse s.transform
  let object_point := Matrix.mult_4x4_by_1d inverse_transform p
  let object_normal :=
    match s.shape_type with
    | .sphere => sphereNormalAt object_point
    | .plane => vector 0 1 0
    | .test => (vector 1 1 1).norm
  let transposed := Matrix.transpose inverse_transform
  let world_normal := Matrix.mult_4x4_by_1d transposed object_normal
  let world_normal := { world_normal with w := 0 }
  pure world_normal.norm

end Shape

namespace Intersections

/-- The accumulator loop inside `Intersections::hit`, one iteration per list
element. -/
def hitLoop (hit : Intersection) : List Intersection → Intersection
  | [] => hit
  | intersect :: rest =>
      hitLoop (if hit.t < 0 ∨ (intersect.t < hit.t ∧ intersect.t ≥ 0) then intersect else hit) rest

/-- `Intersections::hit`: empty input gives an empty result; otherwise fold
the update rule over the whole list starting from the first element, and keep
the final candidate only if its `t` is non-negative. -/
def hit (xs : Intersections) : Intersections :=
  match xs.intersections with
  | [] => ⟨[]⟩
  | first :: _ =>
      let h := hitLoop ⟨first.t, first.object⟩ xs.intersections
      if h.t ≥ 0 then ⟨[⟨h.t, h.object⟩]⟩ else ⟨[]⟩

end Intersections

/-- `src/intersections/mod.rs`: the precomputed shading frame. -/
structure Computations where
  t : ℝ
  object : Shape
  pt : Tuple
  eyev : Tuple
  normalv : Tuple
  reflectv : Tuple
  inside : Prop
  over_point : Tuple
  under_point : Tuple
  n1 : ℝ
  n2 : ℝ

/-- The container-update step of `prepare_computations`: remove the first
container whose handle matches the shape's, otherwise append the shape. -/
def updateContainers (containers : List Shape) (s : Shape) : List Shape :=
  if containers.any (fun c => c.handle = s.handle)
  then containers.eraseP (fun c => c.handle = s.handle)
  else containers ++ [s]

/-- Refractive index of the last container, 1.0 if there is none (mirrors
`containers[containers.len() - 1].material.refractive_index` guarded by the
emptiness test). -/
def lastRefractiveIndex (containers : List Shape) : ℝ :=
  match containers.getLast? with
  | none => 1
  | some c => c.material.refractive_index

/-- The `for intersect in xs.intersections` loop of `prepare_computations`
deriving `n1`/`n2`: the target is recognised by `t`-equality with the hit
`i`, and the loop breaks right after setting `n2`. -/
def n1n2Walk (i : Intersection) : List Intersection → List Shape → ℝ → ℝ → ℝ × ℝ
  | [], _, n1, n2 => (n1, n2)
  | intersect :: rest, containers, n1, n2 =>
      let n1 := if intersect.t = i.t then lastRefractiveIndex containers else n1
      let containers := updateContainers containers intersect.object
      if intersect.t = i.t then (n1, lastRefractiveIndex containers)
      else n1n2Walk i rest containers n1 n2

/-- `prepare_computations` (`src/intersections/mod.rs` lines 43–113). -/
def prepare_computations (i : Intersection) (r : Ray) (xs : Intersections) :
    Except String Computations := do
  let t := i.t
  let pt := r.position t
  let normalv0 ← i.object.normal_at pt
  let eyev := r.direction.negate
  let inside := dot normalv0 eyev < 0
  let normalv := if dot normalv0 eyev < 0 then normalv0.negate else normalv0
  let over_point := pt.add (normalv.mult 1e-10)
  let under_point := pt.sub (normalv.mult 1e-10)
  let reflectv := reflect r.direction normalv
  let _hit := xs.hit
  let n12 := n1n2Walk i xs.intersections [] 1 1
  pure ⟨t, i.object, pt, eyev, normalv, reflectv, inside, over_point, under_point,
    n12.1, n12.2⟩

/-- `Pattern::pattern_at_object`: world point → object space → pattern space
(two matrix inversions, each a potential panic), then the kind rule. -/
def Pattern.pattern_at_object (pattern : Pattern) (object : Shape) (p : Tuple) :
    Except String Color := do
  let i_object_tx ← Matrix.inverse object.transform
  let object_point := Matrix.mult_4x4_by_1d i_object_tx p
  let i_pattern_tx ← Matrix.inverse pattern.transform
  let pattern_point := Matrix.mult_4x4_by_1d i_pattern_tx object_point
  pure (pattern.pattern_at pattern_point)

/-- `src/light/mod.rs`: a point light. -/
structure PointLight where
  position : Tuple
  intensity : Color

/-- `src/light/mod.rs` `lighting`: the Phong illumination law (pattern
resolution can panic on a singular transform, hence `Except`). -/
def lighting (m : Material) (o : Shape) (l : PointLight) (position eyev normalv : Tuple)
    (is_in_shadow : Prop) : Except String Color := do
  let color ← match m.pattern with
    | some pat => pat.pattern_at_object o position
    | none => pure m.color
  let effective_color := Color.cdot color l.intensity
  let lightv := (l.position.sub position).norm
  let ambient := Color.mult effective_color m.ambient
  let light_dot_normal := dot lightv normalv
  let ds : Color × Color :=
    if light_dot_normal < 0 then (⟨0, 0, 0⟩, ⟨0, 0, 0⟩)
    else
      let diffuse := Color.mult effective_color (m.diffuse * light_dot_normal)
      let neg_lightv := lightv.negate
      let reflectv := reflect neg_lightv normalv
      let reflect_dot_eye := dot reflectv eyev
      if reflect_dot_eye ≤ 0 then (diffuse, ⟨0, 0, 0⟩)
      else (diffuse, Color.mult l.intensity (m.specular * reflect_dot_eye ^ (m.shininess : ℝ)))
  if is_in_shadow then pure ambient
  else pure (Color.add (Color.add ambient ds.1) ds.2)

/-- `Option::unwrap` on the world's light: panics (`Except.error`) when no
light is configured. -/
def unwrapLight : Option PointLight → Except String PointLight
  | none => .error "called `Option::unwrap()` on a `None` value"
  | some l => .ok l

/-- `src/world/mod.rs`: the scene — one optional light plus a shape list. -/
structure World where
  light : Option PointLight
  objects : List Shape

namespace World

/-- `World::new`: no light, no objects. -/
def new : World := ⟨none, []⟩

/-- Insert one intersection into a list that is sorted ascending by `t`
(helper for `sortByT`). -/
def insertByT (a : Intersection) : List Intersection → List Intersection
  | [] => [a]
  | b :: rest => if a.t ≤ b.t then a :: b :: rest else b :: insertByT a rest

/-- Stable ascending sort by `t`, modelling
`Vec::sort_by(|a, b| a.t.partial_cmp(&b.t).unwrap())`. -/
def sortByT (l : List Intersection) : List Intersection :=
  l.foldr insertByT []

/-- `World::intersect_world`: every shape's intersections, flattened and
sorted ascending by `t`. -/
def intersect_world (w : World) (r : Ray) : Except String Intersections := do
  let lists ← w.objects.mapM (fun o => do
    let xs ← o.intersects r
    pure xs.intersections)
  pure ⟨sortByT lists.flatten⟩

/-- `World::is_shadowed`: unwraps the light (panic when absent), then casts a
ray from the point toward the light. -/
def is_shadowed (w : World) (p : Tuple) : Except String Bool := do
  let light ← unwrapLight w.light
  let v := light.position.sub p
  let distance := v.mag
  let direction := v.norm
  let r : Ray := ⟨p, direction⟩
  let intersections ← w.intersect_world r
  let h := intersections.hit
  match h.intersections with
  | [] => pure false
  | first :: _ => pure (decide (first.t < distance))

mutual

/-- `World::shade_hit`: surface lighting (shadow-tested at `over_point`) plus
the reflected and refracted contributions. -/
def shade_hit (w : World) (comps : Computations) (remaining : ℕ) : Except String Color := do
  let is_in_shadow ← w.is_shadowed comps.over_point
  let light ← unwrapLight w.light
  let surface ← lighting comps.object.material comps.object light comps.pt comps.eyev
    comps.normalv (is_in_shadow = true)
  let reflected ← w.reflected_color comps remaining
  let refracted ← w.refracted_color comps remaining
  pure (Color.add (Color.add surface reflected) refracted)
termination_by (remaining, 1)

/-- `World::color_at`: intersect the world; shade the first non-negative hit;
black when there is none. -/
def color_at (w : World) (r : Ray) (remaining : ℕ) : Except String Color := do
  let xs ← w.intersect_world r
  if xs.intersections.length > 0 then
    let hit := xs.hit
    if hit.intersections.length > 0 then
      let xs := Intersections.mk hit.intersections
      match hit.intersections.find? (fun h => 0 ≤ h.t) with
      | some h => w.shade_hit (← prepare_computations h r xs) remaining
      | none => pure ⟨0, 0, 0⟩
    else pure ⟨0, 0, 0⟩
  else pure ⟨0, 0, 0⟩
termination_by (remaining, 2)

/-- `World::refracted_color`: black at depth 0 / zero transparency / total
internal reflection, otherwise the recursively shaded refraction ray scaled
by the transparency. -/
def refracted_color (w : World) (comps : Computations) (remaining : ℕ) :
    Except String Color := do
  if _h : remaining = 0 ∨ comps.object.material.transparency = 0 then pure ⟨0, 0, 0⟩
  else
    let n_ratio := comps.n1 / comps.n2
    let cos_i := dot comps.eyev comps.normalv
    let sin2_t := n_ratio * n_ratio * (1 - cos_i * cos_i)
    if sin2_t > 1 then pure ⟨0, 0, 0⟩
    else
      let cos_t := Real.sqrt (1 - sin2_t)
      let direction := (comps.normalv.mult (n_ratio * cos_i - cos_t)).sub
        (comps.eyev.mult n_ratio)
      let refracted_ray : Ray := ⟨comps.under_point, direction⟩
      let color ← w.color_at refracted_ray (remaining - 1)
      pure (Color.mult color comps.object.material.transparency)
termination_by (remaining, 0)
decreasing_by
  exact Prod.Lex.left _ _ (by omega)

/-- `World::reflected_color`: black at depth 0 / zero reflectiveness,
otherwise the recursively shaded reflection ray scaled by the
reflectiveness. -/
def reflected_color (w : World) (comps : Computations) (remaining : ℕ) :
    Except String Color := do
  if _h : remaining = 0 ∨ comps.object.material.reflectiveness = 0 then pure ⟨0, 0, 0⟩
  else
    let reflected_ray : Ray := ⟨comps.over_point, comps.reflectv⟩
    let color ← w.color_at reflected_ray (remaining - 1)
    pure (Color.mult color comps.object.material.reflectiveness)
termination_by (remaining, 0)
decreasing_by
  exact Prod.Lex.left _ _ (by omega)

end

/-- `World::color_at` truncated at its `prepare_computations` call: returns
exactly the `Computations` value that `color_at` hands to `shade_hit` (or
`none` on the paths where `color_at` returns background black or fails
earlier). Mirrors `src/world/mod.rs` lines 140–156. -/
def color_at_comps (w : World) (r : Ray) : Except String (Option Computations) := do
  let xs ← w.intersect_world r
  if xs.intersections.length > 0 then
    let hit := xs.hit
    if hit.intersections.length > 0 then
      let xs := Intersections.mk hit.intersections
      match hit.intersections.find? (fun h => 0 ≤ h.t) with
      | some h => do
          let comps ← prepare_computations h r xs
          pure (some comps)
      | none => pure none
    else pure none
  else pure none

end World

/-- `src/canvas/mod.rs`: a flat row-major pixel buffer. -/
structure Canvas where
  width : ℕ
  height : ℕ
  canvas : List Color

namespace Canvas

/-- `Canvas::new`: width × height black pixels. -/
def new (width height : ℕ) : Canvas :=
  ⟨width, height, List.replicate (width * height) ⟨0, 0, 0⟩⟩

/-- `Canvas::get`: `canvas[x + y * width]`. -/
def get (c : Canvas) (x y : ℕ) : Color := c.canvas.getD (x + y * c.width) ⟨0, 0, 0⟩

/-- `Canvas::set`: `canvas[x + y * width] = color`. -/
def set (c : Canvas) (x y : ℕ) (color : Color) : Canvas :=
  { c with canvas := c.canvas.set (x + y * c.width) color }

end Canvas

/-- `src/camera/mod.rs`: the camera. -/
structure Camera where
  hsize : ℕ
  vsize : ℕ
  half_width : ℝ
  half_height : ℝ
  fov : ℝ
  transform : Matrix
  pixel_size : ℝ

namespace Camera

/-- `Camera::new`. -/
def new (hsize vsize : ℕ) (fov : ℝ) : Camera :=
  let half_view := Real.tan (fov / 2)
  let aspect := (hsize : ℝ) / (vsize : ℝ)
  let hw_hh : ℝ × ℝ :=
    if aspect ≥ 1 then (half_view, half_view / aspect)
    else (half_view * aspect, half_view)
  let pixel_size := hw_hh.1 * 2 / (hsize : ℝ)
  ⟨hsize, vsize, hw_hh.1, hw_hh.2, fov, Matrix.identity 4, pixel_size⟩

/-- `Camera::ray_for_pixel` (the camera-transform inversions can panic). -/
def ray_for_pixel (c : Camera) (x y : ℕ) : Except String Ray := do
  let xoffset := ((x : ℝ) + 0.5) * c.pixel_size
  let yoffset := ((y : ℝ) + 0.5) * c.pixel_size
  let world_x := c.half_width - xoffset
  let world_y := c.half_height - yoffset
  let inv1 ← Matrix.inverse c.transform
  let pixel := Matrix.mult_4x4_by_1d inv1 (point world_x world_y (-1))
  let inv2 ← Matrix.inverse c.transform
  let origin := Matrix.mult_4x4_by_1d inv2 (point 0 0 0)
  let direction := (pixel.sub origin).norm
  pure ⟨origin, direction⟩

/-- `Camera::render_line`: one scanline, `color_at` with recursion budget 5
for every pixel. -/
def render_line (c : Camera) (w : World) (line : ℕ) : Except String (List Color) :=
  (List.range c.hsize).mapM (fun x => do
    let r ← c.ray_for_pixel x line
    w.color_at r 5)

/-- The `rayon` scanline fan-out of `Camera::render`, modelled with an
explicit task-completion order: every scanline index in `order` runs
`render_line` and the finished row is tagged with its own index; `collect`'s
reassembly then stores each row at its tag in an index-ordered buffer,
whatever the completion order was. -/
def collectRows (c : Camera) (w : World) (order : List ℕ) :
    Except String (List (List Color)) := do
  let tagged ← order.mapM (fun line => do
    let out ← c.render_line w line
    pure (line, out))
  pure (tagged.foldl (fun acc yrow => acc.set yrow.1 yrow.2)
    (List.replicate c.vsize []))

/-- `Camera::render` under a given task-completion order: fan out the
scanlines, then copy `pixels[y][x]` into the canvas at `(x, y)` with the
source's sequential double loop. -/
def render (c : Camera) (w : World) (order : List ℕ) : Except String Canvas := do
  let canvas := Canvas.new c.hsize c.vsize
  let pixels ← c.collectRows w order
  pure ((List.range c.vsize).foldl (fun cv y =>
    (List.range c.hsize).foldl (fun cv x =>
      cv.set x y ((pixels.getD y []).getD x ⟨0, 0, 0⟩)) cv) canvas)

end Camera

/-- Claim-side description of the n1/n2 derivation (stated from the spec's
words, for comparison with `prepare_computations`): walk the list with a
container list that is initially empty, updating containment at every
intersection before the target; when the walk reaches the target hit — here
identified by its *position* `k` in the list — n1 is the refractive index of
the last container (1.0 if the list is empty), then the hit's shape is
removed if its identity handle is already present, otherwise appended, and
n2 is the refractive index of the last container after that update. -/
def specN1N2 (xs : List Intersection) (k : ℕ) (hk : k < xs.length) : ℝ × ℝ :=
  let containers := (xs.take k).foldl (fun cs x => updateContainers cs x.object) []
  (lastRefractiveIndex containers,
   lastRefractiveIndex (updateContainers containers (xs.get ⟨k, hk⟩).object))

/-- Glass sphere with refractive index 1.5 (handle 1). -/
def glassA : Shape := Shape.glass_sphere 1

/-- Glass sphere with refractive index 2.0 (handle 2). -/
def glassB : Shape :=
  let s := Shape.glass_sphere 2
  { s with material := { s.material with refractive_index := 2 } }

/-- Glass sphere with refractive index 2.5 (handle 3). -/
def glassC : Shape :=
  let s := Shape.glass_sphere 3
  { s with material := { s.material with refractive_index := 2.5 } }

/-- The six ordered intersections of a ray through the common axis of three
*concentric* glass spheres of radii 1 < 2 < 3 centered at the origin with
refractive indices 1.5 (outermost), 2.0 (middle), 2.5 (innermost): a ray
from (0,0,−10) along +z meets the outer sphere at t = 7 and 13, the middle
at 8 and 12, the inner at 9 and 11 (the shapes' transforms, irrelevant to
the n1/n2 walk, are left at identity). -/
def concentricXs : List Intersection :=
  [⟨7, glassA⟩, ⟨8, glassB⟩, ⟨9, glassC⟩, ⟨11, glassC⟩, ⟨12, glassB⟩, ⟨13, glassA⟩]

/-- The axis ray of the concentric-spheres scenario. -/
def concentricRay : Ray := ⟨point 0 0 (-10), vector 0 0 1⟩

/-- The six ordered intersections of the repository's own
`finding_n1_and_n2_and_various_intersections` test: three *overlapping*
glass spheres A (1.5), B (2.0), C (2.5) met in the order A, B, C, B, C, A
(transforms, irrelevant to the n1/n2 walk, left at identity). -/
def overlappingXs : List Intersection :=
  [⟨2, glassA⟩, ⟨2.75, glassB⟩, ⟨3.25, glassC⟩, ⟨4.75, glassB⟩, ⟨5.25, glassC⟩, ⟨6, glassA⟩]

/-- The ray of the overlapping-spheres test. -/
def overlappingRay : Ray := ⟨point 0 0 (-4), vector 0 0 1⟩

/-- A 1×1 camera with the identity transform (the `half_width`,
`half_height` and `pixel_size` fields are irrelevant to the render
plumbing and set to 0). -/
def camOne : Camera := ⟨1, 1, 0, 0, 0, Matrix.identity 4, 0⟩

/-- The finished 1×1 black canvas. -/
def canvasOne : Canvas := ⟨1, 1, [⟨0, 0, 0⟩]⟩

/-! ## Helper lemmas: 4×4 matrix algebra -/

lemma range_four : List.range 4 = [0, 1, 2, 3] := rfl

lemma Matrix.mult_rows (a b : Matrix) : (Matrix.mult a b).rows = 4 := rfl

lemma Matrix.mult_cols (a b : Matrix) : (Matrix.mult a b).cols = 4 := rfl

/-- Applying a product of a 4×4 matrix with any matrix to a tuple is the same
as applying the factors one after the other. -/
lemma Matrix.mult_apply (a b : Matrix) (ha : a.rows = 4) (hac : a.cols = 4) (p : Tuple) :
    Matrix.mult_4x4_by_1d (Matrix.mult a b) p =
      Matrix.mult_4x4_by_1d a (Matrix.mult_4x4_by_1d b p) := by
  obtain ⟨ar, ac, ad⟩ := a
  simp only at ha hac
  subst ha hac
  simp only [Matrix.mult, Matrix.mult_4x4_by_1d, Matrix.get, range_four, List.map_cons,
    List.map_nil, List.flatten, List.sum_cons, List.sum_nil, List.append_nil, List.getD,
    List.get?_eq_getElem?, Tuple.mk.injEq]
  norm_num
  refine ⟨by ring, by ring, by ring, by ring⟩

/-- Applying the 4×4 identity to a tuple is the identity. -/
lemma Matrix.identity_apply (p : Tuple) :
    Matrix.mult_4x4_by_1d (Matrix.identity 4) p = p := by
  simp [Matrix.identity, Matrix.mult_4x4_by_1d, Matrix.get]

lemma applyCall_transform (t : Transform) (call : TransformCall) :
    (applyCall t call).transform = Matrix.mult t.transform (callMatrix call) := by
  cases call <;> rfl

/-- A `Transform` chain applied to a tuple unrolls to applying the call
matrices right-to-left (the last call written acts first on the tuple). -/
lemma applyChain_apply (t : Transform) (ht : t.transform.rows = 4)
    (htc : t.transform.cols = 4) (calls : List TransformCall) (p : Tuple) :
    Matrix.mult_4x4_by_1d (applyChain t calls).transform p =
      Matrix.mult_4x4_by_1d t.transform
        (calls.foldr (fun call q => Matrix.mult_4x4_by_1d (callMatrix call) q) p) := by
  induction calls generalizing t with
  | nil => rfl
  | cons c rest ih =>
      have step : applyChain t (c :: rest) = applyChain (applyCall t c) rest := rfl
      rw [step, ih (applyCall t c) (by rw [applyCall_transform]; rfl)
        (by rw [applyCall_transform]; rfl), applyCall_transform,
        Matrix.mult_apply t.transform (callMatrix c) ht htc, List.foldr_cons]

/-! ## Claim C4: order of composition in `Transform` chains -/

/-- C4 counterexample: for the chain `Transform::new().translate(10,5,7)
.scale(2,2,2)` and the point (1,0,1), the composed matrix does *not* apply
the first-written call innermost: the result differs from scale-then-
translate read as "first call applied first". The composed matrix applied
to p is translate(scale(p)) = (12,5,9), not scale(translate(p)) =
(22,10,16). -/
theorem transform_chain_not_first_call_innermost :
    Matrix.mult_4x4_by_1d ((Transform.new.translate 10 5 7).scale 2 2 2).transform
        (point 1 0 1) ≠
      Matrix.mult_4x4_by_1d (scalingMatrix 2 2 2)
        (Matrix.mult_4x4_by_1d (translationMatrix 10 5 7) (point 1 0 1)) := by
  have lhs : Matrix.mult_4x4_by_1d ((Transform.new.translate 10 5 7).scale 2 2 2).transform
      (point 1 0 1) = point 12 5 9 := by
    simp only [Transform.new, Transform.translate, Transform.scale]
    rw [Matrix.mult_apply _ _ rfl rfl, Matrix.mult_apply _ _ rfl rfl]
    simp only [Matrix.identity_apply]
    norm_num [Matrix.mult_4x4_by_1d, Matrix.get, scalingMatrix, translationMatrix, point]
  have rhs : Matrix.mult_4x4_by_1d (scalingMatrix 2 2 2)
      (Matrix.mult_4x4_by_1d (translationMatrix 10 5 7) (point 1 0 1)) = point 22 10 16 := by
    norm_num [Matrix.mult_4x4_by_1d, Matrix.get, scalingMatrix, translationMatrix, point]
  rw [lhs, rhs]
  intro h
  have := congrArg Tuple.x h
  simp [point] at this

/-- C4 (amended): a `Transform` chain right-multiplies each new call onto the
accumulated matrix, so the *first* call written is the *outermost* transform:
the composed matrix applied to a tuple equals the written calls' matrices
applied right-to-left (the last call written is the one applied directly to
the tuple, `Transform::new().f1().f2()` applied to p is f1 applied to
(f2 applied to p)). -/
theorem transform_chain_first_call_outermost (calls : List TransformCall) (p : Tuple) :
    Matrix.mult_4x4_by_1d (applyChain Transform.new calls).transform p =
      calls.foldr (fun call q => Matrix.mult_4x4_by_1d (callMatrix call) q) p := by
  rw [applyChain_apply Transform.new rfl rfl calls p]
  exact Matrix.identity_apply _

/-! ## Claim C9: `Transform` chains preserve the homogeneous coordinate -/

/-- The last row of a matrix is (0, 0, 0, 1). -/
def BottomRowAffine (m : Matrix) : Prop :=
  m.get 3 0 = 0 ∧ m.get 3 1 = 0 ∧ m.get 3 2 = 0 ∧ m.get 3 3 = 1

lemma bottomRowAffine_callMatrix (call : TransformCall) : BottomRowAffine (callMatrix call) := by
  cases call <;>
    simp [BottomRowAffine, callMatrix, translationMatrix, scalingMatrix, rotationXMatrix,
      rotationYMatrix, rotationZMatrix, shearingMatrix, Matrix.get]

lemma bottomRowAffine_identity : BottomRowAffine (Matrix.identity 4) := by
  simp [BottomRowAffine, Matrix.identity, Matrix.get]

lemma bottomRowAffine_mult (a b : Matrix) (ha : a.rows = 4) (hac : a.cols = 4)
    (hA : BottomRowAffine a) (hB : BottomRowAffine b) :
    BottomRowAffine (Matrix.mult a b) := by
  obtain ⟨ar, ac, ad⟩ := a
  simp only at ha hac
  subst ha hac
  obtain ⟨hA0, hA1, hA2, hA3⟩ := hA
  obtain ⟨hB0, hB1, hB2, hB3⟩ := hB
  simp only [Matrix.get] at hA0 hA1 hA2 hA3
  norm_num at hA0 hA1 hA2 hA3
  simp only [BottomRowAffine, Matrix.mult, Matrix.get, range_four, List.map_cons,
    List.map_nil, List.flatten, List.sum_cons, List.sum_nil, List.append_nil, List.getD,
    List.get?_eq_getElem?] at hB0 hB1 hB2 hB3 ⊢
  norm_num [hA0, hA1, hA2, hA3] at hB0 hB1 hB2 hB3 ⊢
  exact ⟨hB0, hB1, hB2, hB3⟩

lemma bottomRowAffine_applyChain (t : Transform) (ht : t.transform.rows = 4)
    (htc : t.transform.cols = 4) (hB : BottomRowAffine t.transform)
    (calls : List TransformCall) : BottomRowAffine (applyChain t calls).transform := by
  induction calls generalizing t with
  | nil => exact hB
  | cons c rest ih =>
      have step : applyChain t (c :: rest) = applyChain (applyCall t c) rest := rfl
      rw [step]
      refine ih (applyCall t c) ?_ ?_ ?_
      · rw [applyCall_transform]; rfl
      · rw [applyCall_transform]; rfl
      · rw [applyCall_transform]
        exact bottomRowAffine_mult _ _ ht htc hB (bottomRowAffine_callMatrix c)

lemma bottomRowAffine_apply_w (m : Matrix) (hB : BottomRowAffine m) (p : Tuple) :
    (Matrix.mult_4x4_by_1d m p).w = p.w := by
  obtain ⟨h0, h1, h2, h3⟩ := hB
  simp [Matrix.mult_4x4_by_1d, h0, h1, h2, h3]

/-- C9: every matrix built by a chain of `Transform` builder calls maps a
tuple with w = 0 to a tuple with w exactly 0 and a tuple with w = 1 to a
tuple with w exactly 1. -/
theorem transform_chain_preserves_w (calls : List TransformCall) (p : Tuple) :
    (p.w = 0 → (Matrix.mult_4x4_by_1d (applyChain Transform.new calls).transform p).w = 0) ∧
    (p.w = 1 → (Matrix.mult_4x4_by_1d (applyChain Transform.new calls).transform p).w = 1) := by
  have hw : (Matrix.mult_4x4_by_1d (applyChain Transform.new calls).transform p).w = p.w :=
    bottomRowAffine_apply_w _
      (bottomRowAffine_applyChain Transform.new rfl rfl bottomRowAffine_identity calls) p
  constructor
  · intro h0; rw [hw, h0]
  · intro h1; rw [hw, h1]

/-- C9 witness: the concrete chain translate(2,3,4) then rotate_x(1) on the
vector (1,1,1) and the point (1,1,1). -/
theorem transform_chain_preserves_w_witness :
    ((vector 1 1 1).w = 0 →
      (Matrix.mult_4x4_by_1d
        (applyChain Transform.new [.translate 2 3 4, .rotate_x 1]).transform
        (vector 1 1 1)).w = 0) ∧
    ((point 1 1 1).w = 1 →
      (Matrix.mult_4x4_by_1d
        (applyChain Transform.new [.translate 2 3 4, .rotate_x 1]).transform
        (point 1 1 1)).w = 1) :=
  ⟨(transform_chain_preserves_w [.translate 2 3 4, .rotate_x 1] (vector 1 1 1)).1,
   (transform_chain_preserves_w [.translate 2 3 4, .rotate_x 1] (point 1 1 1)).2⟩

/-! ## Claim C5: matrix inversion -/

lemma Matrix.inverse_ok (a : Matrix) (hdet : a.determinant ≠ 0) :
    a.inverse = .ok (Matrix.transpose ⟨a.rows, a.cols,
      (((List.range a.rows).map fun i =>
        (List.range a.cols).map fun j =>
          Matrix.cofactor a i j / a.determinant)).flatten⟩) := by
  unfold Matrix.inverse Matrix.invertible
  rw [if_neg (not_not_intro hdet)]

/-- C5 counterexample: inverting the (invertible) 2×2 matrix [[1,2],[3,4]]
returns a matrix whose recorded row count is 4, not 2 — the result is *not*
"a matrix of the same size as the input" because `transpose` hard-codes a
4×4 result size. -/
theorem matrix_inverse_2x2_wrong_size :
    (Matrix.inverse ⟨2, 2, [1, 2, 3, 4]⟩).toOption.map Matrix.rows = some 4 ∧
      (4 : ℕ) ≠ 2 := by
  constructor
  · have hdet : Matrix.determinant ⟨2, 2, [1, 2, 3, 4]⟩ ≠ 0 := by
      unfold Matrix.determinant
      norm_num [Matrix.get]
    rw [Matrix.inverse_ok _ hdet]
    rfl
  · norm_num

/-- C5 (amended): for square matrices of size 2, 3 or 4, `inverse` fails
fatally exactly when the determinant is 0, and for a nonzero determinant
returns a matrix whose flat data is the transpose of the cofactor matrix
divided by the determinant (`data[i*n + j] = cofactor(j, i) / det`), but
whose recorded dimensions are always 4×4 because `transpose` stamps its
result 4×4; only for 4×4 inputs is the result a matrix of the same size as
the input. The determinant/cofactor/inversion arithmetic itself is
size-generic. -/
theorem matrix_inverse_spec (a : Matrix) (hsq : a.cols = a.rows)
    (hn : a.rows = 2 ∨ a.rows = 3 ∨ a.rows = 4) :
    ((∃ e, a.inverse = .error e) ↔ a.determinant = 0) ∧
    (a.determinant ≠ 0 → ∃ r, a.inverse = .ok r ∧ r.rows = 4 ∧ r.cols = 4 ∧
      r.data.length = a.rows * a.rows ∧
      ∀ i j, i < a.rows → j < a.rows →
        r.data.getD (i * a.rows + j) 0 = a.cofactor j i / a.determinant) := by
  constructor
  · unfold Matrix.inverse Matrix.invertible
    by_cases h : a.determinant = 0
    · simp [h]
    · simp [h]
  · intro hdet
    obtain ⟨ar, ac, ad⟩ := a
    simp only at hsq hn hdet ⊢
    subst hsq
    rcases hn with h | h | h <;> subst h <;>
      refine ⟨_, Matrix.inverse_ok _ hdet, rfl, rfl,
        (by simp [Matrix.transpose, Matrix.get, List.range_succ]), ?_⟩ <;>
      (intro i j hi hj
       interval_cases i <;> interval_cases j <;>
         simp [Matrix.transpose, Matrix.get, List.range_succ])

/-- C5 witness: the amended statement instantiated at the concrete 2×2
matrix [[1,2],[3,4]]. -/
theorem matrix_inverse_spec_witness :
    (((∃ e, Matrix.inverse ⟨2, 2, [1, 2, 3, 4]⟩ = .error e) ↔
        Matrix.determinant ⟨2, 2, [1, 2, 3, 4]⟩ = 0) ∧
      (Matrix.determinant ⟨2, 2, [1, 2, 3, 4]⟩ ≠ 0 →
        ∃ r, Matrix.inverse ⟨2, 2, [1, 2, 3, 4]⟩ = .ok r ∧ r.rows = 4 ∧ r.cols = 4 ∧
          r.data.length = 2 * 2 ∧
          ∀ i j, i < 2 → j < 2 →
            r.data.getD (i * 2 + j) 0 =
              Matrix.cofactor ⟨2, 2, [1, 2, 3, 4]⟩ j i /
                Matrix.determinant ⟨2, 2, [1, 2, 3, 4]⟩)) :=
  matrix_inverse_spec ⟨2, 2, [1, 2, 3, 4]⟩ rfl (Or.inl rfl)

/-! ## Claim C6: `hit` selection -/

namespace Intersections

/-- Full characterization of the `hit` accumulator loop. -/
lemma hitLoop_cases (l : List Intersection) : ∀ h : Intersection,
    ((0 ≤ h.t ∨ ∃ i ∈ l, 0 ≤ i.t) →
      hitLoop h l ∈ h :: l ∧ 0 ≤ (hitLoop h l).t ∧
      (0 ≤ h.t → (hitLoop h l).t ≤ h.t) ∧
      (∀ i ∈ l, 0 ≤ i.t → (hitLoop h l).t ≤ i.t)) ∧
    ((h.t < 0 ∧ ∀ i ∈ l, i.t < 0) → (hitLoop h l).t < 0) := by
  induction l with
  | nil =>
      intro h
      refine ⟨?_, ?_⟩
      · rintro (h0 | ⟨i, hi, _⟩)
        · exact ⟨List.mem_singleton.mpr rfl, h0, fun _ => le_refl _, by simp⟩
        · simp at hi
      · rintro ⟨hneg, _⟩
        exact hneg
  | cons a rest ih =>
      intro h
      have step : hitLoop h (a :: rest) =
          hitLoop (if h.t < 0 ∨ (a.t < h.t ∧ a.t ≥ 0) then a else h) rest := rfl
      by_cases hcond : h.t < 0 ∨ (a.t < h.t ∧ a.t ≥ 0)
      · rw [step, if_pos hcond]
        refine ⟨?_, ?_⟩
        · rintro hexists
          have hex' : 0 ≤ a.t ∨ ∃ i ∈ rest, 0 ≤ i.t := by
            rcases hcond with hneg | ⟨_, ha0⟩
            · rcases hexists with h0 | ⟨i, hi, hit0⟩
              · exact absurd h0 (not_le.mpr hneg)
              · rcases List.mem_cons.mp hi with rfl | hi'
                · exact Or.inl hit0
                · exact Or.inr ⟨i, hi', hit0⟩
            · exact Or.inl ha0
          obtain ⟨hmem, h0, hle, hall⟩ := (ih a).1 hex'
          refine ⟨?_, h0, ?_, ?_⟩
          · rcases List.mem_cons.mp hmem with heq | hm
            · rw [heq]; exact List.mem_cons_of_mem _ (List.mem_cons_self _ _)
            · exact List.mem_cons_of_mem _ (List.mem_cons_of_mem _ hm)
          · intro hh0
            rcases hcond with hneg | ⟨halt, ha0⟩
            · exact absurd hh0 (not_le.mpr hneg)
            · exact le_trans (hle ha0) (le_of_lt halt)
          · intro i hi hit0
            rcases List.mem_cons.mp hi with rfl | hi'
            · exact hle hit0
            · exact hall i hi' hit0
        · rintro ⟨hneg, hallneg⟩
          have hat : a.t < 0 := hallneg a (List.mem_cons_self _ _)
          exact (ih a).2 ⟨hat, fun i hi => hallneg i (List.mem_cons_of_mem _ hi)⟩
      · rw [step, if_neg hcond]
        push_neg at hcond
        obtain ⟨hh0', hmin⟩ := hcond
        refine ⟨?_, ?_⟩
        · rintro _
          obtain ⟨hmem, h0, hle, hall⟩ := (ih h).1 (Or.inl hh0')
          refine ⟨?_, h0, fun _ => hle hh0', ?_⟩
          · rcases List.mem_cons.mp hmem with heq | hm
            · rw [heq]; exact List.mem_cons_self _ _
            · exact List.mem_cons_of_mem _ (List.mem_cons_of_mem _ hm)
          · intro i hi hit0
            rcases List.mem_cons.mp hi with rfl | hi'
            · exact le_trans (hle hh0')
                (le_of_not_lt (fun hlt => absurd (hmin hlt) (not_lt.mpr hit0)))
            · exact hall i hi' hit0
        · rintro ⟨hneg, _⟩
          exact absurd hh0' (not_le.mpr hneg)

/-- `hit` on a list whose `t`s are all negative (in particular an empty
list) is empty. -/
lemma hit_of_all_neg (xs : Intersections)
    (hall : ∀ i ∈ xs.intersections, i.t < 0) : xs.hit = ⟨[]⟩ := by
  obtain ⟨l⟩ := xs
  cases l with
  | nil => rfl
  | cons first rest =>
      have hneg : first.t < 0 := hall first (List.mem_cons_self _ _)
      have := (hitLoop_cases (first :: rest) first).2 ⟨hneg, hall⟩
      simp only [hit]
      rw [if_neg (not_le.mpr this)]

/-- `hit` on a list containing a non-negative `t` returns a singleton with
the smallest non-negative `t`. -/
lemma hit_of_exists_nonneg (xs : Intersections)
    (hex : ∃ i ∈ xs.intersections, 0 ≤ i.t) :
    ∃ h, xs.hit = ⟨[h]⟩ ∧ h ∈ xs.intersections ∧ 0 ≤ h.t ∧
      ∀ i ∈ xs.intersections, 0 ≤ i.t → h.t ≤ i.t := by
  obtain ⟨l⟩ := xs
  cases l with
  | nil => simp at hex
  | cons first rest =>
      obtain ⟨hmem, h0, _, hall⟩ :=
        (hitLoop_cases (first :: rest) first).1
          (by rcases hex with ⟨i, hi, hi0⟩; exact Or.inr ⟨i, hi, hi0⟩)
      refine ⟨hitLoop first (first :: rest), ?_, ?_, h0, hall⟩
      · simp only [hit]
        rw [if_pos h0]
      · rcases List.mem_cons.mp hmem with heq | hm
        · rw [heq]; exact List.mem_cons_self _ _
        · exact hm

/-- `hit` of a singleton with non-negative `t` is that singleton. -/
lemma hit_singleton (h : Intersection) (h0 : 0 ≤ h.t) :
    (Intersections.mk [h]).hit = ⟨[h]⟩ := by
  have hl : hitLoop ⟨h.t, h.object⟩ [h] = h := by
    simp only [hitLoop]
    rw [if_neg]
    push_neg
    exact ⟨h0, fun hlt => absurd hlt (lt_irrefl _)⟩
  simp only [hit, hl]
  rw [if_pos h0]

end Intersections

/-- C6 counterexample: with two intersections sharing the minimal
non-negative `t` but carrying different shapes (handles 1 and 2), `hit`
returns the first-listed one, so `hit(xs) ≠ hit(reverse(xs))`: `hit`
is not order-independent on ties. -/
theorem hit_not_order_independent_on_ties :
    (Intersections.mk [⟨1, Shape.new .sphere 1⟩, ⟨1, Shape.new .sphere 2⟩]).hit ≠
      (Intersections.mk
        (([⟨1, Shape.new .sphere 1⟩, ⟨1, Shape.new .sphere 2⟩] :
          List Intersection).reverse)).hit := by
  have h1 : (Intersections.mk [⟨1, Shape.new .sphere 1⟩, ⟨1, Shape.new .sphere 2⟩]).hit =
      ⟨[⟨1, Shape.new .sphere 1⟩]⟩ := by
    simp only [Intersections.hit, Intersections.hitLoop]
    norm_num
  have h2 : (Intersections.mk
      (([⟨1, Shape.new .sphere 1⟩, ⟨1, Shape.new .sphere 2⟩] :
        List Intersection).reverse)).hit = ⟨[⟨1, Shape.new .sphere 2⟩]⟩ := by
    simp only [List.reverse_cons, List.reverse_nil, List.nil_append, List.cons_append,
      Intersections.hit, Intersections.hitLoop]
    norm_num
  rw [h1, h2]
  intro hcontra
  have := congrArg (fun v => v.intersections.map (fun i => i.object.handle)) hcontra
  simp [Shape.new] at this

/-- C6 (amended): `hit` returns the intersection with the smallest
non-negative `t` (empty when the list is empty or every `t` is negative) and
is idempotent; `hit(xs)` and `hit(reverse(xs))` always agree on emptiness
and on the returned `t`, and are fully equal whenever no two distinct
intersections of the list share a `t` — but on a tie for the minimal
non-negative `t` between different objects, `hit` keeps the first-listed
one, so full order-independence fails (see the counterexample). -/
theorem hit_spec (xs : Intersections) :
    ((∀ i ∈ xs.intersections, i.t < 0) → xs.hit = ⟨[]⟩) ∧
    ((∃ i ∈ xs.intersections, 0 ≤ i.t) →
      ∃ h, xs.hit = ⟨[h]⟩ ∧ h ∈ xs.intersections ∧ 0 ≤ h.t ∧
        ∀ i ∈ xs.intersections, 0 ≤ i.t → h.t ≤ i.t) ∧
    (xs.hit.hit = xs.hit) ∧
    ((xs.hit.intersections.map Intersection.t) =
      ((Intersections.mk xs.intersections.reverse).hit.intersections.map Intersection.t)) ∧
    ((∀ a ∈ xs.intersections, ∀ b ∈ xs.intersections, a.t = b.t → a = b) →
      xs.hit = (Intersections.mk xs.intersections.reverse).hit) := by
  by_cases hex : ∃ i ∈ xs.intersections, 0 ≤ i.t
  · obtain ⟨h, hh, hmem, h0, hmin⟩ := Intersections.hit_of_exists_nonneg xs hex
    have hexrev : ∃ i ∈ (Intersections.mk xs.intersections.reverse).intersections, 0 ≤ i.t := by
      obtain ⟨i, hi, hi0⟩ := hex
      exact ⟨i, List.mem_reverse.mpr hi, hi0⟩
    obtain ⟨h', hh', hmem', h0', hmin'⟩ :=
      Intersections.hit_of_exists_nonneg _ hexrev
    have hmem'' : h' ∈ xs.intersections := List.mem_reverse.mp hmem'
    have hteq : h.t = h'.t :=
      le_antisymm (hmin h' hmem'' h0') (hmin' h (List.mem_reverse.mpr hmem) h0)
    refine ⟨?_, fun _ => ⟨h, hh, hmem, h0, hmin⟩, ?_, ?_, ?_⟩
    · intro hall
      obtain ⟨i, hi, hi0⟩ := hex
      exact absurd (hall i hi) (not_lt.mpr hi0)
    · rw [hh]
      exact Intersections.hit_singleton h h0
    · simp only [hh, hh', List.map_cons, List.map_nil]
      rw [hteq]
    · intro huniq
      rw [hh, hh', huniq h hmem h' hmem'' hteq]
  · push_neg at hex
    have hrev : ∀ i ∈ (Intersections.mk xs.intersections.reverse).intersections, i.t < 0 :=
      fun i hi => hex i (List.mem_reverse.mp hi)
    have e1 := Intersections.hit_of_all_neg xs hex
    have e2 := Intersections.hit_of_all_neg _ hrev
    exact ⟨fun _ => e1, fun hx => absurd hx (by push_neg; exact hex),
      by rw [e1]; rfl, by rw [e1, e2], fun _ => by rw [e1, e2]⟩

/-- C6 witness: `hit` on the concrete list with `t`s (5, 7, −3, 2) — all on
one shape — picks t = 2; the instantiated spec with its hypotheses
discharged. -/
theorem hit_spec_witness :
    (∃ i ∈ (Intersections.mk [⟨5, Shape.new .sphere 3⟩, ⟨7, Shape.new .sphere 3⟩,
        ⟨-3, Shape.new .sphere 3⟩, ⟨2, Shape.new .sphere 3⟩]).intersections, 0 ≤ i.t) ∧
    (∃ h, (Intersections.mk [⟨5, Shape.new .sphere 3⟩, ⟨7, Shape.new .sphere 3⟩,
        ⟨-3, Shape.new .sphere 3⟩, ⟨2, Shape.new .sphere 3⟩]).hit = ⟨[h]⟩ ∧
      h ∈ (Intersections.mk [⟨5, Shape.new .sphere 3⟩, ⟨7, Shape.new .sphere 3⟩,
        ⟨-3, Shape.new .sphere 3⟩, ⟨2, Shape.new .sphere 3⟩]).intersections ∧ 0 ≤ h.t ∧
      ∀ i ∈ (Intersections.mk [⟨5, Shape.new .sphere 3⟩, ⟨7, Shape.new .sphere 3⟩,
        ⟨-3, Shape.new .sphere 3⟩, ⟨2, Shape.new .sphere 3⟩]).intersections,
          0 ≤ i.t → h.t ≤ i.t) :=
  ⟨⟨⟨2, Shape.new .sphere 3⟩, by norm_num, by norm_num⟩,
    (hit_spec (Intersections.mk [⟨5, Shape.new .sphere 3⟩, ⟨7, Shape.new .sphere 3⟩,
        ⟨-3, Shape.new .sphere 3⟩, ⟨2, Shape.new .sphere 3⟩])).2.1
      ⟨⟨2, Shape.new .sphere 3⟩, by norm_num, by norm_num⟩⟩

/-! ## Claim C3: the checker pattern -/

/-- C3: at the point (0.99, 0, 0) the checker returns color B, although the
floor-parity rule of the claim (floor(0.99) + floor(0) + floor(0) = 0, even)
demands color A — the code rounds each coordinate to the nearest integer
*before* flooring, which also makes the code's own test
`checker_should_repeat_in_x` (expecting A = white at x = 0.99) fail. -/
theorem checker_rounds_before_floor :
    Checker.pattern_at (Pattern.new .checker ⟨1, 1, 1⟩ ⟨0, 0, 0⟩) (point 0.99 0 0) =
      (Pattern.new .checker ⟨1, 1, 1⟩ ⟨0, 0, 0⟩).b ∧
    (⌊(0.99 : ℝ)⌋ + ⌊(0 : ℝ)⌋ + ⌊(0 : ℝ)⌋) % 2 = 0 ∧
    (Pattern.new .checker ⟨1, 1, 1⟩ ⟨0, 0, 0⟩).b ≠
      (Pattern.new .checker ⟨1, 1, 1⟩ ⟨0, 0, 0⟩).a := by
  have hround99 : rustRound (0.99 : ℝ) = 1 := by
    unfold rustRound
    rw [if_pos (by norm_num)]
    have : ⌊(0.99 : ℝ) + 1 / 2⌋ = 1 := by
      rw [Int.floor_eq_iff] <;> norm_num
    rw [this]; norm_num
  have hround0 : rustRound (0 : ℝ) = 0 := by
    unfold rustRound
    rw [if_pos le_rfl]
    have : ⌊(0 : ℝ) + 1 / 2⌋ = 0 := by
      rw [Int.floor_eq_iff] <;> norm_num
    rw [this]; norm_num
  have hfloor1 : rustFloor (1 : ℝ) = 1 := by
    unfold rustFloor; norm_num
  have hfloor0 : rustFloor (0 : ℝ) = 0 := by
    unfold rustFloor; norm_num
  refine ⟨?_, ?_, ?_⟩
  · unfold Checker.pattern_at
    rw [if_neg]
    simp only [point, hround99, hround0, hfloor1, hfloor0]
    have h12 : rustTrunc ((1 + 0 + 0 : ℝ) / 2) = 0 := by
      unfold rustTrunc
      rw [if_pos (by norm_num)]
      have : ⌊((1 + 0 + 0 : ℝ) / 2)⌋ = 0 := by
        rw [Int.floor_eq_iff] <;> norm_num
      rw [this]; norm_num
    unfold rustRem
    rw [h12]
    norm_num
  · have : ⌊(0.99 : ℝ)⌋ = 0 := by
      rw [Int.floor_eq_iff] <;> norm_num
    rw [this]
    norm_num
  · simp only [Pattern.new, ne_eq, Color.mk.injEq]
    norm_num

/-! ## Claim C7: ray–sphere intersection -/

/-- The quadratic-formula value with the negative square-root sign is a root
of `A t² + B t + C` when `sq² = B² − 4AC`. -/
lemma quadratic_root_minus (A B C sq : ℝ) (hA : A ≠ 0)
    (hs2 : sq * sq = B * B - 4 * A * C) :
    A * ((-B - sq) / 2 / A) ^ 2 + B * ((-B - sq) / 2 / A) + C = 0 := by
  field_simp
  linear_combination 2 * A ^ 2 * hs2

/-- The quadratic-formula value with the positive square-root sign is a root
of `A t² + B t + C` when `sq² = B² − 4AC`. -/
lemma quadratic_root_plus (A B C sq : ℝ) (hA : A ≠ 0)
    (hs2 : sq * sq = B * B - 4 * A * C) :
    A * ((-B + sq) / 2 / A) ^ 2 + B * ((-B + sq) / 2 / A) + C = 0 := by
  field_simp
  linear_combination 2 * A ^ 2 * hs2

/-- C7: for every ray with a nonzero direction, `Sphere::intersects` returns
no intersections exactly when the discriminant of the ray–sphere quadratic
is negative, and otherwise exactly two intersections on the given shape,
ordered ascending by `t`, whose `t`s are roots of the quadratic (a tangent
ray yields the two equal roots). -/
theorem sphere_intersects_spec (s : Shape) (r : Ray)
    (hd : r.direction ≠ ⟨0, 0, 0, 0⟩) :
    (2 * dot r.direction (r.origin.sub (point 0 0 0)) *
        (2 * dot r.direction (r.origin.sub (point 0 0 0))) -
        4 * dot r.direction r.direction *
          (dot (r.origin.sub (point 0 0 0)) (r.origin.sub (point 0 0 0)) - 1) < 0 →
      Sphere.intersects s r = ⟨[]⟩) ∧
    (0 ≤ 2 * dot r.direction (r.origin.sub (point 0 0 0)) *
        (2 * dot r.direction (r.origin.sub (point 0 0 0))) -
        4 * dot r.direction r.direction *
          (dot (r.origin.sub (point 0 0 0)) (r.origin.sub (point 0 0 0)) - 1) →
      ∃ t1 t2, Sphere.intersects s r = ⟨[⟨t1, s⟩, ⟨t2, s⟩]⟩ ∧ t1 ≤ t2 ∧
        dot r.direction r.direction * t1 ^ 2 +
          2 * dot r.direction (r.origin.sub (point 0 0 0)) * t1 +
          (dot (r.origin.sub (point 0 0 0)) (r.origin.sub (point 0 0 0)) - 1) = 0 ∧
        dot r.direction r.direction * t2 ^ 2 +
          2 * dot r.direction (r.origin.sub (point 0 0 0)) * t2 +
          (dot (r.origin.sub (point 0 0 0)) (r.origin.sub (point 0 0 0)) - 1) = 0) := by
  have ha : 0 < dot r.direction r.direction := by
    rcases hdd : r.direction with ⟨dx, dy, dz, dw⟩
    rw [hdd] at hd
    by_contra hle
    push_neg at hle
    simp only [dot] at hle
    have hx : dx = 0 := by nlinarith [sq_nonneg dx, sq_nonneg dy, sq_nonneg dz, sq_nonneg dw]
    have hy : dy = 0 := by nlinarith [sq_nonneg dx, sq_nonneg dy, sq_nonneg dz, sq_nonneg dw]
    have hz : dz = 0 := by nlinarith [sq_nonneg dx, sq_nonneg dy, sq_nonneg dz, sq_nonneg dw]
    have hw : dw = 0 := by nlinarith [sq_nonneg dx, sq_nonneg dy, sq_nonneg dz, sq_nonneg dw]
    exact hd (by rw [hx, hy, hz, hw])
  constructor
  · intro hdisc
    simp only [Sphere.intersects]
    split
    · rfl
    · next hcond => exact absurd hdisc hcond
  · intro hdisc
    simp only [Sphere.intersects]
    split
    · next hcond => exact absurd hcond (not_lt.mpr hdisc)
    · next hcond =>
        set A := dot r.direction r.direction with hA
        set B := 2 * dot r.direction (r.origin.sub (point 0 0 0)) with hB
        set C := dot (r.origin.sub (point 0 0 0)) (r.origin.sub (point 0 0 0)) - 1 with hC
        set sq := Real.sqrt (B * B - 4 * A * C) with hsq
        have hs2 : sq * sq = B * B - 4 * A * C := Real.mul_self_sqrt hdisc
        have hs0 : 0 ≤ sq := Real.sqrt_nonneg _
        have hAne : A ≠ 0 := ne_of_gt ha
        have hle : (-B - sq) / 2 / A ≤ (-B + sq) / 2 / A := by
          apply (div_le_div_right ha).mpr
          apply (div_le_div_right (by norm_num : (0 : ℝ) < 2)).mpr
          linarith
        rw [if_neg (not_lt.mpr hle)]
        refine ⟨(-B - sq) / 2 / A, (-B + sq) / 2 / A, rfl, hle,
          quadratic_root_minus A B C sq hAne hs2,
          quadratic_root_plus A B C sq hAne hs2⟩

/-- C7 witness: the ray from (0,0,−5) along +z (nonzero direction,
discriminant 4 ≥ 0) yields exactly two ascending intersections. -/
theorem sphere_intersects_spec_witness :
    (Ray.mk (point 0 0 (-5)) (vector 0 0 1)).direction ≠ (⟨0, 0, 0, 0⟩ : Tuple) ∧
    ∃ t1 t2, Sphere.intersects (Shape.new .sphere 0) (Ray.mk (point 0 0 (-5)) (vector 0 0 1)) =
      ⟨[⟨t1, Shape.new .sphere 0⟩, ⟨t2, Shape.new .sphere 0⟩]⟩ ∧ t1 ≤ t2 := by
  have hd0 : (Ray.mk (point 0 0 (-5)) (vector 0 0 1)).direction ≠ (⟨0, 0, 0, 0⟩ : Tuple) := by
    simp [vector]
  refine ⟨hd0, ?_⟩
  obtain ⟨t1, t2, heq, hle, -, -⟩ :=
    (sphere_intersects_spec (Shape.new .sphere 0) _ hd0).2
      (by norm_num [dot, vector, point, Tuple.sub])
  exact ⟨t1, t2, heq, hle⟩

/-! ## Helper lemmas: evaluating the identity inverse and `Except` binds -/

lemma Matrix.submatrix_id4 :
    Matrix.submatrix ⟨4, 4, [(1 : ℝ), 0, 0, 0, 0, 1, 0, 0, 0, 0, 1, 0, 0, 0, 0, 1]⟩ 0 0 =
      ⟨3, 3, [1, 0, 0, 0, 1, 0, 0, 0, 1]⟩ := by
  norm_num [Matrix.submatrix, Matrix.get, List.range_succ]

lemma Matrix.submatrix_id3 :
    Matrix.submatrix ⟨3, 3, [(1 : ℝ), 0, 0, 0, 1, 0, 0, 0, 1]⟩ 0 0 = ⟨2, 2, [1, 0, 0, 1]⟩ := by
  norm_num [Matrix.submatrix, Matrix.get, List.range_succ]

lemma Matrix.det_id2 : Matrix.determinant ⟨2, 2, [(1 : ℝ), 0, 0, 1]⟩ = 1 := by
  unfold Matrix.determinant
  norm_num [Matrix.get]

lemma Matrix.det_id3 : Matrix.determinant ⟨3, 3, [(1 : ℝ), 0, 0, 0, 1, 0, 0, 0, 1]⟩ = 1 := by
  unfold Matrix.determinant
  norm_num [Matrix.get, List.range_succ]
  unfold Matrix.cofactor
  norm_num [Matrix.submatrix_id3, Matrix.det_id2]

lemma Matrix.det_identity4 : Matrix.determinant (Matrix.identity 4) = 1 := by
  unfold Matrix.determinant
  norm_num [Matrix.identity, Matrix.get, List.range_succ]
  unfold Matrix.cofactor
  norm_num [Matrix.submatrix_id4, Matrix.det_id3]

lemma Matrix.det_identity4_ne : Matrix.determinant (Matrix.identity 4) ≠ 0 := by
  rw [Matrix.det_identity4]; norm_num

/-- Closed form of the determinant of a 3×3 literal matrix. -/
lemma Matrix.det3_lit (a b c d e f g h i : ℝ) :
    Matrix.determinant ⟨3, 3, [a, b, c, d, e, f, g, h, i]⟩ =
      a * (e * i - f * h) - b * (d * i - f * g) + c * (d * h - e * g) := by
  unfold Matrix.determinant
  norm_num [Matrix.get, List.range_succ]
  unfold Matrix.cofactor
  norm_num [Matrix.submatrix, Matrix.get, List.range_succ]
  unfold Matrix.determinant
  norm_num [Matrix.get]
  ring

/-- The inverse of the 4×4 identity evaluates to the 4×4 identity. -/
lemma Matrix.inverse_identity4 : Matrix.inverse (Matrix.identity 4) = .ok (Matrix.identity 4) := by
  rw [Matrix.inverse_ok _ Matrix.det_identity4_ne]
  simp only [Matrix.det_identity4]
  unfold Matrix.cofactor
  norm_num [Matrix.identity, Matrix.transpose, Matrix.submatrix, Matrix.get,
    List.range_succ, Matrix.det3_lit]

/-- Inverting a bind: if an `Except` bind produced `ok`, the first stage
produced `ok` and the continuation took it to the result. -/
lemma except_bind_ok {ε α β : Type} {e : Except ε α} {f : α → Except ε β} {b : β}
    (h : Except.bind e f = .ok b) : ∃ a, e = .ok a ∧ f a = .ok b := by
  cases e with
  | error err =>
      simp only [Except.bind] at h
      exact Except.noConfusion h
  | ok a => exact ⟨a, rfl, by simpa only [Except.bind] using h⟩

/-- `normal_at` succeeds on a shape whose transform is the identity. -/
lemma normal_at_of_id (s : Shape) (hid : s.transform = Matrix.identity 4) (p : Tuple) :
    ∃ v, s.normal_at p = .ok v := by
  unfold Shape.normal_at
  rw [hid, Matrix.inverse_ok _ Matrix.det_identity4_ne]
  exact ⟨_, rfl⟩

/-! ## Claim C1: the refractive-index walk of `prepare_computations` -/

/-- Whenever `prepare_computations` succeeds, its `n1`/`n2` fields are
exactly the result of the container walk `n1n2Walk` over the given list. -/
lemma prepare_n1n2_of_ok (i : Intersection) (r : Ray) (xs : Intersections)
    (comps : Computations) (h : prepare_computations i r xs = .ok comps) :
    (comps.n1, comps.n2) = n1n2Walk i xs.intersections [] 1 1 := by
  obtain ⟨v, hv, hrest⟩ := except_bind_ok h
  have h3 := Except.ok.inj hrest
  rw [← h3]

/-- On a shape with identity transform, `prepare_computations` succeeds and
its `n1`/`n2` projection is the container walk. -/
lemma prepare_n1n2_of_id (i : Intersection) (r : Ray) (xs : Intersections)
    (hid : i.object.transform = Matrix.identity 4) :
    (prepare_computations i r xs).toOption.map (fun c => (c.n1, c.n2)) =
      some (n1n2Walk i xs.intersections [] 1 1) := by
  obtain ⟨v, hv⟩ := normal_at_of_id i.object hid (r.position i.t)
  simp only [prepare_computations, hv]
  rfl

/-- On a shape with identity transform, `prepare_computations` succeeds. -/
lemma prepare_ok_of_id (i : Intersection) (r : Ray) (xs : Intersections)
    (hid : i.object.transform = Matrix.identity 4) :
    ∃ comps, prepare_computations i r xs = .ok comps := by
  obtain ⟨v, hv⟩ := normal_at_of_id i.object hid (r.position i.t)
  simp only [prepare_computations, hv]
  exact ⟨_, rfl⟩

/-- Walking past a prefix none of whose `t`s equals the target's just folds
the container updates over the prefix. -/
lemma n1n2Walk_append_of_ne (i : Intersection) (pre : List Intersection)
    (hpre : ∀ x ∈ pre, x.t ≠ i.t) : ∀ (rest : List Intersection) (cs : List Shape) (n1 n2 : ℝ),
    n1n2Walk i (pre ++ rest) cs n1 n2 =
      n1n2Walk i rest (pre.foldl (fun cs x => updateContainers cs x.object) cs) n1 n2 := by
  induction pre with
  | nil => intro rest cs n1 n2; rfl
  | cons x xs ih =>
      intro rest cs n1 n2
      have hx : x.t ≠ i.t := hpre x (List.mem_cons_self _ _)
      simp only [List.cons_append, n1n2Walk, if_neg hx, List.foldl_cons]
      exact ih (fun y hy => hpre y (List.mem_cons_of_mem _ hy)) _ _ _ _

/-- The walk step at the target hit itself. -/
lemma n1n2Walk_target (i : Intersection) (rest : List Intersection) (cs : List Shape)
    (n1 n2 : ℝ) :
    n1n2Walk i (i :: rest) cs n1 n2 =
      (lastRefractiveIndex cs, lastRefractiveIndex (updateContainers cs i.object)) := by
  simp [n1n2Walk]

/-- C1 counterexample: for the six ordered intersections of three
*concentric* glass spheres (1.5 outermost, 2.0, 2.5 innermost), the fourth
boundary (the ray exiting the innermost sphere) yields (n1, n2) =
(2.5, 2.0) — the ray re-enters the middle 2.0 medium — and not the claimed
(2.5, 2.5); the claimed sequence belongs to the *overlapping*-spheres
arrangement of the repository's own test, not to concentric spheres. -/
theorem prepare_computations_concentric_fourth_pair :
    (prepare_computations ⟨11, glassC⟩ concentricRay ⟨concentricXs⟩).toOption.map
        (fun c => (c.n1, c.n2)) = some (2.5, 2) ∧
      ((2.5 : ℝ), (2 : ℝ)) ≠ ((2.5 : ℝ), (2.5 : ℝ)) := by
  constructor
  · rw [prepare_n1n2_of_id _ _ _ (by rfl)]
    norm_num [concentricXs, n1n2Walk, updateContainers, lastRefractiveIndex,
      glassA, glassB, glassC, Shape.glass_sphere, Shape.new, Material.new]
  · intro h
    have := congrArg Prod.snd h
    norm_num at this

/-- C1 (amended): `prepare_computations` derives n1/n2 by the claimed
container walk *provided the target hit is the first list entry bearing its
`t`* (the code recognises the hit by `t`-equality, not by identity, and
stops at the first match); and the six ordered intersections of three
concentric glass spheres with refractive indices 1.5 (outermost), 2.0, 2.5
(innermost) yield (1,1.5), (1.5,2), (2,2.5), (2.5,2), (2,1.5), (1.5,1) —
while the claimed sequence ..., (2.5,2.5), (2.5,1.5), ... is produced by
the *overlapping* arrangement A,B,C,B,C,A of the repository's own test. -/
theorem prepare_computations_n1n2_spec :
    (∀ (xs : List Intersection) (r : Ray) (k : ℕ) (hk : k < xs.length),
      List.Pairwise (fun a b => a.t ≤ b.t) xs →
      (∀ x ∈ xs.take k, x.t ≠ (xs.get ⟨k, hk⟩).t) →
      ∀ comps, prepare_computations (xs.get ⟨k, hk⟩) r ⟨xs⟩ = .ok comps →
        (comps.n1, comps.n2) = specN1N2 xs k hk) ∧
    ((prepare_computations ⟨7, glassA⟩ concentricRay ⟨concentricXs⟩).toOption.map
        (fun c => (c.n1, c.n2)) = some (1, 1.5) ∧
      (prepare_computations ⟨8, glassB⟩ concentricRay ⟨concentricXs⟩).toOption.map
        (fun c => (c.n1, c.n2)) = some (1.5, 2) ∧
      (prepare_computations ⟨9, glassC⟩ concentricRay ⟨concentricXs⟩).toOption.map
        (fun c => (c.n1, c.n2)) = some (2, 2.5) ∧
      (prepare_computations ⟨11, glassC⟩ concentricRay ⟨concentricXs⟩).toOption.map
        (fun c => (c.n1, c.n2)) = some (2.5, 2) ∧
      (prepare_computations ⟨12, glassB⟩ concentricRay ⟨concentricXs⟩).toOption.map
        (fun c => (c.n1, c.n2)) = some (2, 1.5) ∧
      (prepare_computations ⟨13, glassA⟩ concentricRay ⟨concentricXs⟩).toOption.map
        (fun c => (c.n1, c.n2)) = some (1.5, 1)) ∧
    ((prepare_computations ⟨2, glassA⟩ overlappingRay ⟨overlappingXs⟩).toOption.map
        (fun c => (c.n1, c.n2)) = some (1, 1.5) ∧
      (prepare_computations ⟨2.75, glassB⟩ overlappingRay ⟨overlappingXs⟩).toOption.map
        (fun c => (c.n1, c.n2)) = some (1.5, 2) ∧
      (prepare_computations ⟨3.25, glassC⟩ overlappingRay ⟨overlappingXs⟩).toOption.map
        (fun c => (c.n1, c.n2)) = some (2, 2.5) ∧
      (prepare_computations ⟨4.75, glassB⟩ overlappingRay ⟨overlappingXs⟩).toOption.map
        (fun c => (c.n1, c.n2)) = some (2.5, 2.5) ∧
      (prepare_computations ⟨5.25, glassC⟩ overlappingRay ⟨overlappingXs⟩).toOption.map
        (fun c => (c.n1, c.n2)) = some (2.5, 1.5) ∧
      (prepare_computations ⟨6, glassA⟩ overlappingRay ⟨overlappingXs⟩).toOption.map
        (fun c => (c.n1, c.n2)) = some (1.5, 1)) := by
  refine ⟨?_, ?_, ?_⟩
  · intro xs r k hk _ hfirst comps hok
    obtain ⟨i, hi⟩ : ∃ i, xs.get ⟨k, hk⟩ = i := ⟨_, rfl⟩
    rw [hi] at hok hfirst
    rw [prepare_n1n2_of_ok _ _ _ _ hok]
    have hsplit : xs = xs.take k ++ xs.drop k := (List.take_append_drop k xs).symm
    have hdrop : xs.drop k = i :: xs.drop (k + 1) := by
      rw [← hi, ← List.get_cons_drop xs ⟨k, hk⟩]
    show n1n2Walk i xs [] 1 1 = specN1N2 xs k hk
    conv_lhs => rw [hsplit]
    rw [n1n2Walk_append_of_ne _ _ hfirst, hdrop, n1n2Walk_target]
    simp only [specN1N2, hi]
  · refine ⟨?_, ?_, ?_, ?_, ?_, ?_⟩ <;>
      (rw [prepare_n1n2_of_id _ _ _ (by rfl)]
       norm_num [concentricXs, n1n2Walk, updateContainers, lastRefractiveIndex,
         glassA, glassB, glassC, Shape.glass_sphere, Shape.new, Material.new])
  · refine ⟨?_, ?_, ?_, ?_, ?_, ?_⟩ <;>
      (rw [prepare_n1n2_of_id _ _ _ (by rfl)]
       norm_num [overlappingXs, n1n2Walk, updateContainers, lastRefractiveIndex,
         glassA, glassB, glassC, Shape.glass_sphere, Shape.new, Material.new])

/-- C1 witness: the amended walk characterisation instantiated at the
concentric list with target index 3 (the fourth intersection), all
hypotheses discharged concretely. -/
theorem prepare_computations_n1n2_spec_witness :
    List.Pairwise (fun a b => a.t ≤ b.t) concentricXs ∧
    (∀ x ∈ concentricXs.take 3, x.t ≠ (concentricXs.get ⟨3, by norm_num [concentricXs]⟩).t) ∧
    ∃ comps, prepare_computations (concentricXs.get ⟨3, by norm_num [concentricXs]⟩)
        concentricRay ⟨concentricXs⟩ = .ok comps ∧
      (comps.n1, comps.n2) = specN1N2 concentricXs 3 (by norm_num [concentricXs]) := by
  have hsorted : List.Pairwise (fun a b => a.t ≤ b.t) concentricXs := by
    norm_num [concentricXs, List.pairwise_cons]
  have hfirst : ∀ x ∈ concentricXs.take 3,
      x.t ≠ (concentricXs.get ⟨3, by norm_num [concentricXs]⟩).t := by
    norm_num [concentricXs]
  obtain ⟨comps, hcomps⟩ := prepare_ok_of_id
    (concentricXs.get ⟨3, by norm_num [concentricXs]⟩) concentricRay ⟨concentricXs⟩ (by rfl)
  exact ⟨hsorted, hfirst, comps, hcomps,
    (prepare_computations_n1n2_spec).1 concentricXs concentricRay 3
      (by norm_num [concentricXs]) hsorted hfirst comps hcomps⟩

/-! ## Claim C2: `color_at` prepares computations from the hit alone -/

/-- `hit` always returns an empty or a singleton intersection list. -/
lemma Intersections.hit_shape (xs : Intersections) :
    xs.hit = ⟨[]⟩ ∨ ∃ h1, xs.hit = ⟨[h1]⟩ := by
  unfold Intersections.hit
  cases hxs : xs.intersections with
  | nil => exact Or.inl rfl
  | cons first rest =>
      dsimp only []
      split
      · exact Or.inr ⟨_, rfl⟩
      · exact Or.inl rfl

/-- Whenever `prepare_computations` succeeds, the `object` field is the
hit's object. -/
lemma prepare_object_of_ok (i : Intersection) (r : Ray) (xs : Intersections)
    (comps : Computations) (h : prepare_computations i r xs = .ok comps) :
    comps.object = i.object := by
  obtain ⟨v, hv, hrest⟩ := except_bind_ok h
  have h3 := Except.ok.inj hrest
  rw [← h3]

/-- C2: `World::color_at` hands `prepare_computations` only the singleton
hit list, so every `Computations` record it shades with has n1 = 1.0 and
n2 = the refractive index of the hit object's own material, regardless of
any enclosing transparent shapes along the ray. -/
theorem color_at_comps_n1_n2 (w : World) (r : Ray) (comps : Computations)
    (h : w.color_at_comps r = .ok (some comps)) :
    comps.n1 = 1 ∧ comps.n2 = comps.object.material.refractive_index := by
  obtain ⟨xs, hxs, hrest⟩ := except_bind_ok h
  simp only at hrest
  split at hrest
  · split at hrest
    · split at hrest
      · next h1 hfind =>
          obtain ⟨c, hc, hpure⟩ := except_bind_ok hrest
          have hcc : some c = some comps := Except.ok.inj hpure
          have hcc' : c = comps := Option.some.inj hcc
          subst hcc'
          rcases Intersections.hit_shape xs with hnil | ⟨hone, hsing⟩
          · rw [hnil] at hfind
            exact absurd hfind (by simp)
          · rw [hsing] at hfind hc
            have hmem : h1 ∈ [hone] := List.mem_of_find?_eq_some hfind
            have heq : h1 = hone := by simpa using hmem
            subst heq
            have hn12 := prepare_n1n2_of_ok _ _ _ _ hc
            have hobj := prepare_object_of_ok _ _ _ _ hc
            rw [n1n2Walk_target] at hn12
            have hn1 : c.n1 = lastRefractiveIndex [] := congrArg Prod.fst hn12
            have hn2 : c.n2 = lastRefractiveIndex (updateContainers [] h1.object) :=
              congrArg Prod.snd hn12
            refine ⟨?_, ?_⟩
            · simpa [lastRefractiveIndex] using hn1
            · rw [hobj]
              simpa [lastRefractiveIndex, updateContainers] using hn2
      · simp [pure, Except.pure] at hrest
    · simp [pure, Except.pure] at hrest
  · simp [pure, Except.pure] at hrest

lemma except_ok_bind {α β : Type} (a : α) (f : α → Except String β) :
    (Except.ok a : Except String α) >>= f = f a := rfl

lemma except_pure_eq {α : Type} (a : α) : (pure a : Except String α) = Except.ok a := rfl

lemma except_map_ok {α β : Type} (f : α → β) (a : α) :
    f <$> (Except.ok a : Except String α) = Except.ok (f a) := rfl

/-- C2 witness: a single default sphere (handle 5) and the ray from
(0,0,−5) along +z; `color_at_comps` produces a record with n1 = 1 and
n2 = the sphere material's refractive index. -/
theorem color_at_comps_n1_n2_witness :
    ∃ comps, (World.mk none [Shape.new .sphere 5]).color_at_comps
        (Ray.mk (point 0 0 (-5)) (vector 0 0 1)) = .ok (some comps) ∧
      comps.n1 = 1 ∧ comps.n2 = comps.object.material.refractive_index := by
  have hray : (Ray.mk (point 0 0 (-5)) (vector 0 0 1)).transform (Matrix.identity 4) =
      Ray.mk (point 0 0 (-5)) (vector 0 0 1) := by
    simp [Ray.transform, Matrix.identity_apply]
  have hs4 : Real.sqrt 4 = 2 := by
    rw [show (4 : ℝ) = 2 ^ 2 by norm_num, Real.sqrt_sq (by norm_num)]
  have hsph : Sphere.intersects (Shape.new .sphere 5) (Ray.mk (point 0 0 (-5)) (vector 0 0 1)) =
      ⟨[⟨4, Shape.new .sphere 5⟩, ⟨6, Shape.new .sphere 5⟩]⟩ := by
    unfold Sphere.intersects
    norm_num [dot, point, vector, Tuple.sub, hs4]
  have hT : (Shape.new ShapeType.sphere 5).transform = Matrix.identity 4 := rfl
  have hintersects : (Shape.new .sphere 5).intersects (Ray.mk (point 0 0 (-5)) (vector 0 0 1)) =
      .ok ⟨[⟨4, Shape.new .sphere 5⟩, ⟨6, Shape.new .sphere 5⟩]⟩ := by
    unfold Shape.intersects
    rw [hT, Matrix.inverse_identity4]
    simp only [except_ok_bind]
    show pure (Sphere.intersects (Shape.new ShapeType.sphere 5)
        ((Ray.mk (point 0 0 (-5)) (vector 0 0 1)).transform (Matrix.identity 4))) =
      Except.ok ⟨[⟨4, Shape.new .sphere 5⟩, ⟨6, Shape.new .sphere 5⟩]⟩
    rw [hray, hsph]
    rfl
  have hiw : (World.mk none [Shape.new .sphere 5]).intersect_world
      (Ray.mk (point 0 0 (-5)) (vector 0 0 1)) =
      .ok ⟨[⟨4, Shape.new .sphere 5⟩, ⟨6, Shape.new .sphere 5⟩]⟩ := by
    unfold World.intersect_world
    simp only [List.mapM_cons, List.mapM_nil, hintersects, except_ok_bind, except_pure_eq]
    norm_num [World.sortByT, World.insertByT]
  have hhit : (Intersections.mk
      [⟨4, Shape.new .sphere 5⟩, ⟨(6 : ℝ), Shape.new .sphere 5⟩]).hit =
      ⟨[⟨4, Shape.new .sphere 5⟩]⟩ := by
    norm_num [Intersections.hit, Intersections.hitLoop]
  obtain ⟨c, hc⟩ := prepare_ok_of_id ⟨4, Shape.new .sphere 5⟩
    (Ray.mk (point 0 0 (-5)) (vector 0 0 1))
    ⟨[⟨4, Shape.new .sphere 5⟩]⟩ (by rfl)
  have hfind : List.find? (fun h => decide (0 ≤ h.t))
      [(⟨4, Shape.new .sphere 5⟩ : Intersection)] = some ⟨4, Shape.new .sphere 5⟩ :=
    List.find?_cons_of_pos _ (by simp only [decide_eq_true_eq]; norm_num)
  have hcac : (World.mk none [Shape.new .sphere 5]).color_at_comps
      (Ray.mk (point 0 0 (-5)) (vector 0 0 1)) = .ok (some c) := by
    unfold World.color_at_comps
    rw [hiw]
    simp only [except_ok_bind]
    norm_num [hhit, hfind]
    rw [hc]
    rfl
  exact ⟨c, hcac, color_at_comps_n1_n2 _ _ c hcac⟩

/-! ## Claim C8: shading with no light fails fast -/

/-- `is_shadowed` with no configured light fails with the unwrap panic. -/
lemma is_shadowed_no_light (w : World) (hl : w.light = none) (p : Tuple) :
    w.is_shadowed p = .error "called `Option::unwrap()` on a `None` value" := by
  simp only [World.is_shadowed, hl]
  rfl

/-- C8: on a world whose light is `None`, both `shade_hit` (for any
computations and recursion budget) and `is_shadowed` (for any point) fail
fast with the unwrap panic instead of producing a value. -/
theorem world_no_light_fails_fast (w : World) (comps : Computations) (remaining : ℕ)
    (p : Tuple) (hl : w.light = none) :
    (∃ e, w.shade_hit comps remaining = .error e) ∧
    (∃ e, w.is_shadowed p = .error e) := by
  refine ⟨⟨"called `Option::unwrap()` on a `None` value", ?_⟩,
    ⟨_, is_shadowed_no_light w hl p⟩⟩
  unfold World.shade_hit
  rw [is_shadowed_no_light w hl comps.over_point]
  rfl

/-- C8 witness: the empty world (`World::new`, no light) with a concrete
computations record, budget 1 and the origin point. -/
theorem world_no_light_fails_fast_witness :
    World.new.light = none ∧
    ((∃ e, World.new.shade_hit
        ⟨0, Shape.new .sphere 0, point 0 0 0, vector 0 0 0, vector 0 0 0, vector 0 0 0,
          True, point 0 0 0, point 0 0 0, 1, 1⟩ 1 = .error e) ∧
      (∃ e, World.new.is_shadowed (point 0 0 0) = .error e)) :=
  ⟨rfl, world_no_light_fails_fast World.new
    ⟨0, Shape.new .sphere 0, point 0 0 0, vector 0 0 0, vector 0 0 0, vector 0 0 0,
      True, point 0 0 0, point 0 0 0, 1, 1⟩ 1 (point 0 0 0) rfl⟩

/-! ## Claim C10: the parallel render is schedule-independent -/

/-- Reading a list cell just written by `set`. -/
lemma getD_set_self {α : Type} (l : List α) (i : ℕ) (a d : α) (h : i < l.length) :
    (l.set i a).getD i d = a := by
  simp [List.getD_eq_getElem?_getD, List.getElem?_set_eq_of_lt a h]

/-- Reading a list cell other than the one just written by `set`. -/
lemma getD_set_ne {α : Type} (l : List α) (i j : ℕ) (a d : α) (h : i ≠ j) :
    (l.set i a).getD j d = l.getD j d := by
  simp [List.getD_eq_getElem?_getD, List.getElem?_set_ne h]

/-- Reading an in-range cell of a mapped `range`. -/
lemma getD_map_range {α : Type} (g : ℕ → α) (n x : ℕ) (d : α) (h : x < n) :
    ((List.range n).map g).getD x d = g x := by
  simp [List.getD_eq_getElem?_getD, List.getElem?_map, List.getElem?_range h]

/-- Inverting a successful `mapM` over `Except`: every element succeeds and
the result is the pointwise list of successes. -/
lemma mapM_ok_elim {α β : Type} (f : α → Except String β) (d : β) :
    ∀ (l : List α) (res : List β), l.mapM f = .ok res →
      res = l.map (fun x => ((f x).toOption).getD d) ∧
      ∀ x ∈ l, f x = .ok (((f x).toOption).getD d) := by
  intro l
  induction l with
  | nil =>
      intro res h
      rw [List.mapM_nil, except_pure_eq] at h
      injection h with h
      subst h
      exact ⟨rfl, fun x hx => absurd hx (List.not_mem_nil x)⟩
  | cons a t ih =>
      intro res h
      rw [List.mapM_cons] at h
      obtain ⟨y, hy, h2⟩ := except_bind_ok h
      try dsimp only [] at h2
      obtain ⟨ys, hys, h3⟩ := except_bind_ok h2
      try dsimp only [] at h3
      rw [except_pure_eq] at h3
      injection h3 with h3
      obtain ⟨hmap, hall⟩ := ih ys hys
      have hda : ((f a).toOption).getD d = y := by rw [hy]; rfl
      refine ⟨?_, ?_⟩
      · rw [← h3, List.map_cons]
        try dsimp only []
        rw [hda, ← hmap]
      · intro x hx
        rcases List.mem_cons.mp hx with rfl | hx'
        · rw [hda]; exact hy
        · exact hall x hx'

/-- Pointwise success assembles a successful `mapM` over `Except`. -/
lemma mapM_ok_intro {α β : Type} (f : α → Except String β) (g : α → β) :
    ∀ (l : List α), (∀ x ∈ l, f x = .ok (g x)) → l.mapM f = .ok (l.map g) := by
  intro l
  induction l with
  | nil => intro _; rfl
  | cons a t ih =>
      intro hall
      rw [List.mapM_cons]
      simp only [hall a (List.mem_cons_self a t),
        ih (fun x hx => hall x (List.mem_cons_of_mem a hx)), except_ok_bind,
        except_pure_eq, List.map_cons]

/-- Folding index/value writes preserves the buffer length. -/
lemma foldl_set_length {α : Type} :
    ∀ (l : List (ℕ × α)) (init : List α),
      (l.foldl (fun acc p => acc.set p.1 p.2) init).length = init.length := by
  intro l
  induction l with
  | nil => intro init; rfl
  | cons p t ih =>
      intro init
      simp only [List.foldl_cons]
      rw [ih, List.length_set]

/-- Folding index/value writes whose indices all differ from `y` leaves
cell `y` unchanged. -/
lemma foldl_set_getD_of_ne {α : Type} (d : α) :
    ∀ (l : List (ℕ × α)) (init : List α) (y : ℕ),
      (∀ p ∈ l, p.1 ≠ y) →
      (l.foldl (fun acc p => acc.set p.1 p.2) init).getD y d = init.getD y d := by
  intro l
  induction l with
  | nil => intro init y _; rfl
  | cons p t ih =>
      intro init y hne
      simp only [List.foldl_cons]
      rw [ih _ y (fun q hq => hne q (List.mem_cons_of_mem p hq))]
      exact getD_set_ne _ _ _ _ _ (hne p (List.mem_cons_self p t))

/-- Folding index/value writes stores a tagged value at its own index,
provided every element carrying that index carries the same value. -/
lemma foldl_set_getD_mem {α : Type} (d : α) :
    ∀ (l : List (ℕ × α)) (init : List α) (y : ℕ) (v : α),
      (y, v) ∈ l →
      (∀ q ∈ l, q.1 = y → q.2 = v) →
      y < init.length →
      (l.foldl (fun acc p => acc.set p.1 p.2) init).getD y d = v := by
  intro l
  induction l with
  | nil => intro init y v hmem _ _; exact absurd hmem (List.not_mem_nil _)
  | cons p t ih =>
      intro init y v hmem huniq hy
      simp only [List.foldl_cons]
      by_cases hmem' : (y, v) ∈ t
      · exact ih _ y v hmem' (fun q hq h1 => huniq q (List.mem_cons_of_mem p hq) h1)
          (by rw [List.length_set]; exact hy)
      · have hp : p = (y, v) := by
          rcases List.mem_cons.mp hmem with h | h
          · exact h.symm
          · exact absurd h hmem'
        have hne : ∀ q ∈ t, q.1 ≠ y := by
          intro q hq h1
          have h2 := huniq q (List.mem_cons_of_mem p hq) h1
          have h3 : q = (y, v) := Prod.ext h1 h2
          exact hmem' (h3 ▸ hq)
        rw [foldl_set_getD_of_ne d t _ y hne, hp]
        exact getD_set_self _ _ _ _ hy

/-- A permutation of index/value writes with consistent tags folds to the
same buffer. -/
lemma foldl_perm_set {α : Type} (l1 l2 : List (ℕ × α)) (hp : l1.Perm l2)
    (huniq : ∀ p ∈ l1, ∀ q ∈ l1, p.1 = q.1 → p = q) (init : List α) :
    l1.foldl (fun acc p => acc.set p.1 p.2) init =
      l2.foldl (fun acc p => acc.set p.1 p.2) init := by
  refine hp.foldl_eq' ?_ init
  intro p hpm q hqm z
  by_cases h12 : p.1 = q.1
  · rw [huniq p hpm q hqm h12]
  · exact List.set_comm _ _ z h12

/-- `Canvas.set` keeps the width. -/
lemma Canvas.set_width (c : Canvas) (x y : ℕ) (col : Color) :
    (c.set x y col).width = c.width := rfl

/-- `Canvas.set` keeps the height. -/
lemma Canvas.set_height (c : Canvas) (x y : ℕ) (col : Color) :
    (c.set x y col).height = c.height := rfl

/-- `Canvas.set` writes flat cell `x + y*width`. -/
lemma Canvas.set_canvas (c : Canvas) (x y : ℕ) (col : Color) :
    (c.set x y col).canvas = c.canvas.set (x + y * c.width) col := rfl

/-- One scanline of the canvas copy loop: dimensions survive, flat cells
outside the row window keep their value, and flat cell `x + y*width`
receives `P x y`. -/
lemma canvas_row_fold (P : ℕ → ℕ → Color) (y : ℕ) :
    ∀ (n : ℕ) (cv : Canvas),
      ((List.range n).foldl (fun acc x => acc.set x y (P x y)) cv).width = cv.width ∧
      ((List.range n).foldl (fun acc x => acc.set x y (P x y)) cv).height = cv.height ∧
      ((List.range n).foldl (fun acc x => acc.set x y (P x y)) cv).canvas.length =
        cv.canvas.length ∧
      (∀ j, (∀ x, x < n → j ≠ x + y * cv.width) →
        ((List.range n).foldl (fun acc x => acc.set x y (P x y)) cv).canvas.getD j
          ⟨0, 0, 0⟩ = cv.canvas.getD j ⟨0, 0, 0⟩) ∧
      (∀ x, x < n → x + y * cv.width < cv.canvas.length →
        ((List.range n).foldl (fun acc x => acc.set x y (P x y)) cv).canvas.getD
          (x + y * cv.width) ⟨0, 0, 0⟩ = P x y) := by
  intro n
  induction n with
  | zero =>
      intro cv
      exact ⟨rfl, rfl, rfl, fun j _ => rfl, fun x hx => absurd hx (Nat.not_lt_zero x)⟩
  | succ m ih =>
      intro cv
      obtain ⟨ihw, ihh, ihlen, ihout, ihin⟩ := ih cv
      rw [List.range_succ]
      simp only [List.foldl_append, List.foldl_cons, List.foldl_nil]
      refine ⟨?_, ?_, ?_, ?_, ?_⟩
      · rw [Canvas.set_width, ihw]
      · rw [Canvas.set_height, ihh]
      · rw [Canvas.set_canvas, List.length_set, ihlen]
      · intro j hj
        rw [Canvas.set_canvas, ihw,
          getD_set_ne _ _ _ _ _ (fun h => hj m (Nat.lt_succ_self m) h.symm)]
        exact ihout j (fun x hx => hj x (Nat.lt_succ_of_lt hx))
      · intro x hx hbound
        rw [Canvas.set_canvas, ihw]
        by_cases hxm : x = m
        · subst hxm
          exact getD_set_self _ _ _ _ (by rw [ihlen]; exact hbound)
        · rw [getD_set_ne _ _ _ _ _ (fun h => hxm (Nat.add_right_cancel h).symm)]
          exact ihin x (Nat.lt_of_le_of_ne (Nat.le_of_lt_succ hx) hxm) hbound

/-- The full canvas copy loop: dimensions survive, and flat cell `x + y*W`
receives `P x y`. -/
lemma canvas_grid_fold (P : ℕ → ℕ → Color) (W : ℕ) :
    ∀ (m : ℕ) (cv : Canvas), cv.width = W →
      ((List.range m).foldl (fun acc y =>
        (List.range W).foldl (fun acc x => acc.set x y (P x y)) acc) cv).width = W ∧
      ((List.range m).foldl (fun acc y =>
        (List.range W).foldl (fun acc x => acc.set x y (P x y)) acc) cv).height =
        cv.height ∧
      ((List.range m).foldl (fun acc y =>
        (List.range W).foldl (fun acc x => acc.set x y (P x y)) acc) cv).canvas.length =
        cv.canvas.length ∧
      ∀ x y, x < W → y < m → (y + 1) * W ≤ cv.canvas.length →
        ((List.range m).foldl (fun acc y =>
          (List.range W).foldl (fun acc x => acc.set x y (P x y)) acc) cv).canvas.getD
            (x + y * W) ⟨0, 0, 0⟩ = P x y := by
  intro m
  induction m with
  | zero =>
      intro cv hw
      exact ⟨hw, rfl, rfl, fun x y _ hy _ => absurd hy (Nat.not_lt_zero y)⟩
  | succ k ih =>
      intro cv hw
      obtain ⟨ihw, ihh, ihlen, ihcell⟩ := ih cv hw
      rw [List.range_succ]
      simp only [List.foldl_append, List.foldl_cons, List.foldl_nil]
      obtain ⟨hrw, hrh, hrlen, hrout, hrin⟩ := canvas_row_fold P k W
        ((List.range k).foldl (fun acc y =>
          (List.range W).foldl (fun acc x => acc.set x y (P x y)) acc) cv)
      rw [ihw] at hrout hrin
      refine ⟨?_, ?_, ?_, ?_⟩
      · rw [hrw, ihw]
      · rw [hrh, ihh]
      · rw [hrlen, ihlen]
      · intro x y hx hy hbound
        have h1 : x + y * W < (y + 1) * W := by
          rw [Nat.add_mul, Nat.one_mul, Nat.add_comm (y * W) W]
          exact Nat.add_lt_add_right hx _
        by_cases hyk : y = k
        · subst hyk
          refine hrin x hx ?_
          rw [ihlen]
          exact Nat.lt_of_lt_of_le h1 hbound
        · have hylt : y < k := Nat.lt_of_le_of_ne (Nat.le_of_lt_succ hy) hyk
          have hne : ∀ x', x' < W → x + y * W ≠ x' + k * W := by
            intro x' _ heq
            have h2 : (y + 1) * W ≤ k * W := Nat.mul_le_mul_right W hylt
            have h3 : x + y * W < x' + k * W :=
              Nat.lt_of_lt_of_le (Nat.lt_of_lt_of_le h1 h2) (Nat.le_add_left _ _)
            exact absurd heq (Nat.ne_of_lt h3)
          rw [hrout (x + y * W) hne]
          exact ihcell x y hx hylt hbound

/-- `color_at` on the empty world (`World::new`) is background black for
every ray and recursion budget. -/
lemma color_at_empty_world (r : Ray) (n : ℕ) :
    World.new.color_at r n = .ok ⟨0, 0, 0⟩ := by
  have hiw : World.new.intersect_world r = .ok ⟨[]⟩ := rfl
  unfold World.color_at
  rw [hiw]
  rfl

/-- C10: `Camera::render` is schedule-independent. Modelling the `rayon`
fan-out with an explicit task-completion order, any permutation of the
completion order yields the identical canvas; and whenever the schedule
covers every scanline (a permutation of `0..vsize`), each pixel `(x, y)`
of the finished canvas holds exactly `World::color_at` (recursion budget 5)
of that pixel's own ray, stored at its original row index — no pixel
depends on another pixel's result or on the completion order. -/
theorem camera_render_schedule_independent (c : Camera) (w : World)
    (o1 o2 : List ℕ) (cv : Canvas) (hperm : o1.Perm o2)
    (hok : c.render w o1 = .ok cv) :
    c.render w o2 = .ok cv ∧
    (o1.Perm (List.range c.vsize) →
      ∀ x y, x < c.hsize → y < c.vsize →
        ∃ r col, c.ray_for_pixel x y = .ok r ∧ w.color_at r 5 = .ok col ∧
          cv.get x y = col) := by
  have key : ∀ o' : List ℕ, o1.Perm o' → c.render w o' = .ok cv := by
    intro o' hp
    unfold Camera.render Camera.collectRows at hok ⊢
    obtain ⟨pr, hpr, hcopy⟩ := except_bind_ok hok
    obtain ⟨tagged, htag, hfold⟩ := except_bind_ok hpr
    try dsimp only [] at hfold hcopy
    rw [except_pure_eq] at hfold hcopy
    injection hfold with hfold
    injection hcopy with hcopy
    obtain ⟨htageq, hall⟩ := mapM_ok_elim _ ((0 : ℕ), ([] : List Color)) o1 tagged htag
    subst htageq
    have hqrow : ∀ q, q ∈ List.map (fun x =>
        ((Except.toOption ((fun line => bind (c.render_line w line)
          (fun out => pure (line, out))) x)).getD ((0 : ℕ), ([] : List Color)))) o1 →
        c.render_line w q.1 = .ok q.2 := by
      intro q hqm
      obtain ⟨b, hb, hGb⟩ := List.mem_map.mp hqm
      have hgb := hall b hb
      try dsimp only [] at hgb hGb
      rw [hGb] at hgb
      obtain ⟨out, hout, hpure⟩ := except_bind_ok hgb
      try dsimp only [] at hpure
      rw [except_pure_eq] at hpure
      injection hpure with hpure
      rw [← hpure]
      exact hout
    have huniq : ∀ p ∈ List.map (fun x =>
        ((Except.toOption ((fun line => bind (c.render_line w line)
          (fun out => pure (line, out))) x)).getD ((0 : ℕ), ([] : List Color)))) o1,
        ∀ q ∈ List.map (fun x =>
        ((Except.toOption ((fun line => bind (c.render_line w line)
          (fun out => pure (line, out))) x)).getD ((0 : ℕ), ([] : List Color)))) o1,
        p.1 = q.1 → p = q := by
      intro p hpm q hqm h12
      have h1 := hqrow p hpm
      have h2 := hqrow q hqm
      rw [h12] at h1
      rw [h1] at h2
      injection h2 with h2
      exact Prod.ext h12 h2
    have hintro := mapM_ok_intro _ _ o' (fun x hx => hall x (hp.mem_iff.mpr hx))
    have hfold2 := foldl_perm_set _ _ (hp.map _) huniq
      (List.replicate c.vsize ([] : List Color))
    rw [hintro]
    simp only [except_ok_bind, except_pure_eq]
    simp only [except_pure_eq] at hfold hfold2
    rw [← hfold2, hfold, hcopy]
  refine ⟨key o2 hperm, ?_⟩
  intro hrange x y hx hy
  have hr := key (List.range c.vsize) hrange
  unfold Camera.render Camera.collectRows at hr
  obtain ⟨pr, hpr, hcopy⟩ := except_bind_ok hr
  obtain ⟨tagged, htag, hfold⟩ := except_bind_ok hpr
  try dsimp only [] at hfold hcopy
  rw [except_pure_eq] at hfold hcopy
  injection hfold with hfold
  injection hcopy with hcopy
  obtain ⟨htageq, hall⟩ := mapM_ok_elim _ ((0 : ℕ), ([] : List Color)) _ tagged htag
  subst htageq
  have hymem : y ∈ List.range c.vsize := List.mem_range.mpr hy
  have hgy := hall y hymem
  obtain ⟨row, hrow, hpair⟩ := except_bind_ok hgy
  try dsimp only [] at hpair
  rw [except_pure_eq] at hpair
  injection hpair with hpair
  have hmem : (y, row) ∈ List.map (fun x =>
      ((Except.toOption ((fun line => bind (c.render_line w line)
        (fun out => pure (line, out))) x)).getD ((0 : ℕ), ([] : List Color))))
      (List.range c.vsize) := by
    rw [hpair]
    exact List.mem_map_of_mem _ hymem
  have huniq : ∀ q ∈ List.map (fun x =>
      ((Except.toOption ((fun line => bind (c.render_line w line)
        (fun out => pure (line, out))) x)).getD ((0 : ℕ), ([] : List Color))))
      (List.range c.vsize), q.1 = y → q.2 = row := by
    intro q hq h1
    obtain ⟨b, hb, hGb⟩ := List.mem_map.mp hq
    have hgb := hall b hb
    try dsimp only [] at hgb hGb
    rw [hGb] at hgb
    obtain ⟨out, hout, hpure⟩ := except_bind_ok hgb
    try dsimp only [] at hpure
    rw [except_pure_eq] at hpure
    injection hpure with hpure
    have hb1 : b = y := by rw [← h1, ← hpure]
    rw [hb1, hrow] at hout
    injection hout with hout
    rw [← hpure, hout]
  have hlen : y < (List.replicate c.vsize ([] : List Color)).length := by
    rw [List.length_replicate]; exact hy
  have hgetrow : pr.getD y [] = row := by
    rw [← hfold]
    exact foldl_set_getD_mem [] _ _ y row hmem huniq hlen
  unfold Camera.render_line at hrow
  obtain ⟨hroweq, hallpix⟩ := mapM_ok_elim _ (⟨0, 0, 0⟩ : Color) _ row hrow
  have hxmem : x ∈ List.range c.hsize := List.mem_range.mpr hx
  have hfx := hallpix x hxmem
  obtain ⟨r, hray, hcol⟩ := except_bind_ok hfx
  try dsimp only [] at hcol
  refine ⟨r, _, hray, hcol, ?_⟩
  obtain ⟨hgw, hgh, hglen, hgcell⟩ := canvas_grid_fold
    (fun x y => (pr.getD y []).getD x ⟨0, 0, 0⟩) c.hsize c.vsize
    (Canvas.new c.hsize c.vsize) rfl
  have hbound : (y + 1) * c.hsize ≤ (Canvas.new c.hsize c.vsize).canvas.length := by
    have hlen2 : (Canvas.new c.hsize c.vsize).canvas.length = c.hsize * c.vsize := by
      simp [Canvas.new]
    rw [hlen2, Nat.mul_comm c.hsize c.vsize]
    exact Nat.mul_le_mul_right c.hsize hy
  have hcw : cv.width = c.hsize := by
    rw [← hcopy]
    exact hgw
  have hcell : cv.canvas.getD (x + y * c.hsize) ⟨0, 0, 0⟩ =
      (pr.getD y []).getD x ⟨0, 0, 0⟩ := by
    rw [← hcopy]
    exact hgcell x y hx hy hbound
  unfold Canvas.get
  rw [hcw, hcell, hgetrow, hroweq]
  exact getD_map_range _ _ _ _ hx

/-- C10 witness: the 1×1 identity camera over the empty world with the
single-row schedule `[0]` renders the all-black 1×1 canvas, whose one pixel
is `color_at` (budget 5) of its own ray. -/
theorem camera_render_schedule_independent_witness :
    camOne.render World.new [0] = .ok canvasOne ∧
    ∃ r col, camOne.ray_for_pixel 0 0 = .ok r ∧
      World.new.color_at r 5 = .ok col ∧ canvasOne.get 0 0 = col := by
  have hray0 : ∃ r, camOne.ray_for_pixel 0 0 = .ok r := by
    unfold Camera.ray_for_pixel
    rw [show camOne.transform = Matrix.identity 4 from rfl, Matrix.inverse_identity4]
    exact ⟨_, rfl⟩
  obtain ⟨r0, hr0⟩ := hray0
  have hline : camOne.render_line World.new 0 = .ok [⟨0, 0, 0⟩] := by
    unfold Camera.render_line
    rw [show List.range camOne.hsize = [0] from rfl]
    simp only [List.mapM_cons, List.mapM_nil, hr0, except_ok_bind, except_pure_eq,
      color_at_empty_world]
  have hcollect : camOne.collectRows World.new [0] = .ok [[⟨0, 0, 0⟩]] := by
    unfold Camera.collectRows
    simp only [List.mapM_cons, List.mapM_nil, hline, except_ok_bind, except_pure_eq]
    rfl
  have hok : camOne.render World.new [0] = .ok canvasOne := by
    unfold Camera.render
    rw [hcollect]
    rfl
  have hp : ([0] : List ℕ).Perm (List.range camOne.vsize) := by
    rw [show List.range camOne.vsize = [0] from rfl]
  exact ⟨hok, (camera_render_schedule_independent camOne World.new [0] [0] canvasOne
    (List.Perm.refl [0]) hok).2 hp 0 0 (by norm_num [camOne]) (by norm_num [camOne])⟩

end RayTracer
